import Mathlib

/-
Verification of the conversation-orchestration core of A-IR-DD2.

The embedded program is handleSendMessage in
src/components/OptimizedWorkflowBackground.tsx (the per-session
ConversationController), together with the provider dispatcher
(services/llmService.ts, found inside src/services/arcLLMService.ts) and
the Gemini backend adapter (src/services/geminiService.ts).

Modelling conventions, used throughout:
- Machine effects are made explicit: the per-node runtime store becomes a
  message list inside a TurnState record, provider calls become recorded
  DispatchEvent values plus oracle-supplied responses, and awaited external
  results (summarization text, stream chunks, tool outcomes) are parameters.
- Date.now() is embedded as a Nat clock threaded through the turn and
  incremented at every read, so that ids minted during one turn are fresh;
  message ids are embedded as a (time, tag) pair mirroring the template
  strings "msg-N", "msg-N-agent", "msg-N-summary", "msg-summary-prompt-N",
  "msg-N-tool-result", "msg-N-tool-error", "msg-N-followup",
  "msg-N-tool-context", on which the rendering is injective.
- A JS exception is an Except.error carrying the error message and, for the
  controller, the store state at the throw point.
- JS truthiness is spelled out where the source relies on it: a string is
  truthy iff non-empty, an optional field is truthy iff present (and, for
  strings, non-empty); an array is truthy whenever present.
-/

namespace AIRDD

/-- Message sender, the three-way union used by ChatMessage in the
component: user, agent, tool_result. -/
inductive Sender
  | user
  | agent
  | toolResult
deriving DecidableEq, Repr

/-- Tag distinguishing the id template strings built by the component (see
the file comment); together with the Date.now() time this determines the id
string injectively. -/
inductive IdTag
  | plain
  | agentTag
  | summaryTag
  | summaryPromptTag
  | toolResultTag
  | toolErrorTag
  | followupTag
  | toolContextTag
deriving DecidableEq, Repr

/-- Message id: the clock value read from Date.now() plus the template tag. -/
structure MsgId where
  time : Nat
  tag : IdTag
deriving DecidableEq, Repr

/-- ToolCall as issued by the model: id, name, and the argument payload kept
in its serialized (JSON text) form. -/
structure ToolCall where
  id : String
  name : String
  arguments : String
deriving DecidableEq, Repr

/-- Execution status of a message; the source uses the string
literal executing_tool. -/
inductive MsgStatus
  | executingTool
deriving DecidableEq, Repr

/-- ChatMessage, with the fields read or written by the orchestration code.
Optional fields default to absent as in the source object literals. -/
structure ChatMessage where
  id : MsgId
  sender : Sender
  text : String
  isError : Bool := false
  toolCalls : Option (List ToolCall) := none
  status : Option MsgStatus := none
  toolCallId : Option String := none
  toolName : Option String := none
  filename : Option String := none
  mimeType : Option String := none
  image : Option String := none
  fileContent : Option String := none
deriving DecidableEq, Repr

/-- Provider enumeration, from the switch in llmService.getServiceProvider. -/
inductive LLMProvider
  | gemini
  | openai
  | mistral
  | anthropic
  | grok
  | qwen
  | perplexity
  | kimi
  | deepseek
  | lmstudio
  | arcllm
deriving DecidableEq, Repr

/-- Modelled from the spec: the LLMProvider enum values live in types.ts,
which is not among the provided sources; the rendering below follows the
member names used throughout the components. -/
def providerName : LLMProvider → String
  | .gemini => "Gemini"
  | .openai => "OpenAI"
  | .mistral => "Mistral"
  | .anthropic => "Anthropic"
  | .grok => "Grok"
  | .qwen => "Qwen"
  | .perplexity => "Perplexity"
  | .kimi => "Kimi"
  | .deepseek => "DeepSeek"
  | .lmstudio => "LMStudio"
  | .arcllm => "ArcLLM"

/-- Capabilities referenced by the component; chat is the base
conversational capability gating the follow-up stream. -/
inductive LLMCapability
  | chat
  | fileUpload
  | imageGeneration
  | imageModification
  | videoGeneration
deriving DecidableEq, Repr

/-- Declared tool schema (name, description, JSON-schema parameters kept as
text); passed through to the dispatcher unchanged. -/
structure Tool where
  name : String
  description : String
  parameters : String
deriving DecidableEq, Repr

/-- Output-formatting directive of an agent. -/
structure OutputConfig where
  enabled : Bool
  format : String
deriving DecidableEq, Repr

/-- Threshold set of the history policy (historyConfig.limits). -/
structure HistoryLimits where
  token : Nat
  word : Nat
  sentence : Nat
  message : Nat
deriving DecidableEq, Repr

/-- History-policy parameters of an agent (agent.historyConfig). -/
structure HistoryConfig where
  enabled : Bool
  llmProvider : LLMProvider
  model : String
  systemPrompt : String
  limits : HistoryLimits
deriving DecidableEq, Repr

/-- The AgentConfig fields read during a turn. -/
structure Agent where
  llmProvider : LLMProvider
  model : String
  systemPrompt : String
  tools : List Tool
  outputConfig : Option OutputConfig
  capabilities : Option (List LLMCapability)
  historyConfig : Option HistoryConfig
deriving DecidableEq, Repr

/-- One per-provider entry of the configuration store (llmConfigs). -/
structure LLMConfig where
  provider : LLMProvider
  enabled : Bool
  apiKey : String
deriving DecidableEq, Repr

/-- An attached file, with the outcomes of the external readers:
asText is the fileToText result (none when that reader rejects) and
asBase64 the fileToBase64 result. -/
structure FileAtt where
  name : String
  mimeType : String
  asText : Option String
  asBase64 : String
deriving DecidableEq, Repr

/-- Payload of a non-error stream chunk as read by the consumer:
an optional text fragment and an optional tool-call list. -/
structure RespPayload where
  text : Option String := none
  toolCalls : Option (List ToolCall) := none
deriving DecidableEq, Repr

/-- One Increment of a provider stream: either an error carrier or a
response payload, matching the objects yielded by the services. -/
structure Chunk where
  error : Option String := none
  response : Option RespPayload := none
deriving DecidableEq, Repr

/-- A provider call issued by the controller, recorded with the arguments
the source passes: complete is llmService.generateContent (non-streaming),
stream is llmService.generateContentStream. -/
inductive DispatchEvent
  | complete (provider : LLMProvider) (apiKey : String) (model : String)
      (systemPrompt : String) (history : List ChatMessage)
  | stream (provider : LLMProvider) (apiKey : String) (model : String)
      (systemPrompt : String) (history : List ChatMessage)
      (tools : List Tool) (outputConfig : Option OutputConfig)
deriving DecidableEq, Repr

/-- Whether a dispatch event is a streaming call. -/
def DispatchEvent.isStream : DispatchEvent → Bool
  | .stream _ _ _ _ _ _ _ => true
  | .complete _ _ _ _ _ => false

/-- The history argument of a dispatch event. -/
def DispatchEvent.history : DispatchEvent → List ChatMessage
  | .stream _ _ _ _ h _ _ => h
  | .complete _ _ _ _ h => h

/-- Session-plus-observation state threaded through a turn: the node's
message sequence and executing flag (the runtime store), the Date.now()
clock, and the trace of provider calls issued so far. -/
structure TurnState where
  messages : List ChatMessage
  executing : Bool
  clock : Nat
  trace : List DispatchEvent

/-- Reading Date.now(): returns the current clock value and advances it. -/
def tick (st : TurnState) : Nat × TurnState :=
  (st.clock, { st with clock := st.clock + 1 })

/-- Responses of the awaited external calls of one turn: the summarization
completion result, the primary stream's chunks (with an optional exception
thrown by its iterator after them), the tool executor, and the follow-up
stream's chunks likewise. -/
structure Oracles where
  summarize : Except String String
  primaryChunks : List Chunk
  primaryThrow : Option String
  execTool : ToolCall → Except String String
  followChunks : List Chunk
  followThrow : Option String

/-- The inputs of one submission: the agent snapshot (none models the null
guard), the provider configuration list, the raw input text, the optional
attachment, and the localization function t. -/
structure Env where
  agent : Option Agent
  llmConfigs : List LLMConfig
  userInput : String
  attachedFile : Option FileAtt
  tr : String → String

/-- Modelled from the spec: the runtime store module (stores/useRuntimeStore)
is not among the provided sources.  Per the spec a Session is an append-only
Message sequence except for the single in-progress message, which is mutated
in place by id until its stream terminates; addNodeMessage therefore
replaces the message carrying the same id when one exists and appends
otherwise. -/
def addNodeMessage (msgs : List ChatMessage) (m : ChatMessage) : List ChatMessage :=
  if msgs.any (fun x => x.id = m.id) then
    msgs.map (fun x => if x.id = m.id then m else x)
  else
    msgs ++ [m]

/-- Splitting a character list at whitespace, accumulating the current
word reversed. -/
def splitWsAux : List Char → List Char → List (List Char)
  | [], acc => [acc.reverse]
  | c :: rest, acc =>
    if c.isWhitespace then acc.reverse :: splitWsAux rest []
    else splitWsAux rest (c :: acc)

/-- Modelled from the spec: utils/textUtils is not among the provided
sources.  Word count over a history: whitespace-separated non-empty words
of every message text. -/
def countWords (msgs : List ChatMessage) : Nat :=
  (msgs.map (fun m =>
    ((splitWsAux m.text.data []).filter (fun w => w ≠ [])).length)).sum

/-- Modelled from the spec: sentence count over a history, counted as the
number of sentence-terminating characters (period, exclamation or question
mark) in the message texts. -/
def countSentences (msgs : List ChatMessage) : Nat :=
  (msgs.map (fun m => (m.text.data.filter
    (fun c => c.toNat = 46 ∨ c.toNat = 33 ∨ c.toNat = 63)).length)).sum

/-- Modelled from the spec: approximate token count over a history, taken
as the total character count divided by four. -/
def countTokens (msgs : List ChatMessage) : Nat :=
  (msgs.map (fun m => m.text.length)).sum / 4

/-- Modelled from the spec: message count over a history. -/
def countMessages (msgs : List ChatMessage) : Nat :=
  msgs.length

/-- Rendering of a sender for the summarization transcript, matching the
TS union values interpolated by the template literal. -/
def senderStr : Sender → String
  | .user => "user"
  | .agent => "agent"
  | .toolResult => "tool_result"

/-- Whether a character belongs to the WhiteSpace or LineTerminator classes
that the JS String.prototype.trim of the source strips (written through
code points). -/
def jsWsC (c : Char) : Bool :=
  decide (c.toNat = 32 ∨ c.toNat = 9 ∨ c.toNat = 10 ∨ c.toNat = 11 ∨
    c.toNat = 12 ∨ c.toNat = 13 ∨ c.toNat = 160 ∨ c.toNat = 8232 ∨
    c.toNat = 8233 ∨ c.toNat = 65279)

/-- The userInput.trim() of the source: JS trim, stripping leading and
trailing whitespace and line terminators. -/
def jsTrim (s : String) : String :=
  { data := ((s.data.dropWhile jsWsC).reverse.dropWhile jsWsC).reverse }

/-- The user Message built at the top of handleSendMessage: trimmed text,
then the attachment fields; for Mistral the fileToText result is preferred
and the base64 payload is the fallback when that reader rejected. -/
def mkUserMessage (agent : Agent) (attachedFile : Option FileAtt)
    (trimmedInput : String) (n : Nat) : ChatMessage :=
  let base : ChatMessage :=
    { id := { time := n, tag := .plain }, sender := .user, text := trimmedInput }
  match attachedFile with
  | none => base
  | some f =>
    let b := { base with filename := some f.name, mimeType := some f.mimeType }
    if agent.llmProvider = .mistral then
      match f.asText with
      | some txt => { b with fileContent := some txt }
      | none => { b with image := some f.asBase64 }
    else { b with image := some f.asBase64 }

/-- The early-return path taken when the provider config is missing,
disabled, or has no api key: append a localized error message and clear the
executing flag. -/
def configErrorReturn (agent : Agent) (st : TurnState) : TurnState :=
  let pr := tick st
  let errM : ChatMessage :=
    { id := { time := pr.1, tag := .plain }, sender := .agent,
      text := "Erreur: " ++ providerName agent.llmProvider ++
        " n\x27est pas configuré ou activé.",
      isError := true }
  { pr.2 with messages := addNodeMessage pr.2.messages errM, executing := false }

/-- Result of the history-policy block: the conversationHistoryForAPI value
the source computes (and then never reads again), plus the updated state. -/
structure HistoryPhaseResult where
  apiHistory : List ChatMessage
  st : TurnState

/-- The history-policy block of handleSendMessage (lines 1250-1307): with
the policy enabled and a non-empty prior history, the four counters are
computed over history plus the new message and compared (each with >=,
joined by or) against the limits; when due, the summarization provider is
looked up (a miss throws), a single synthetic user message rendering the
transcript as sender-colon-text lines is sent through the non-streaming
generateContent call, and the store is replaced by the summary message
followed by the triggering user message.  A thrown error carries the state
at the throw point. -/
def historyPhaseE (trf : String → String) (agent : Agent)
    (llmConfigs : List LLMConfig) (summOracle : Except String String)
    (snapshot : List ChatMessage) (userMessage : ChatMessage)
    (st : TurnState) : Except (String × TurnState) HistoryPhaseResult :=
  let currentFullHistory := snapshot ++ [userMessage]
  match agent.historyConfig with
  | some h =>
    if h.enabled = true ∧ 0 < snapshot.length then
      if countTokens currentFullHistory ≥ h.limits.token ∨
          countWords currentFullHistory ≥ h.limits.word ∨
          countSentences currentFullHistory ≥ h.limits.sentence ∨
          countMessages currentFullHistory ≥ h.limits.message then
        match llmConfigs.find? (fun c => c.provider = h.llmProvider) with
        | none =>
          .error ("Summarization LLM " ++ providerName h.llmProvider ++
            " not configured.", st)
        | some summCfg =>
          let pr1 := tick st
          let summarizationPrompt :=
            trf "conversation_to_summarize" ++ ":\n\n" ++
              String.intercalate "\n"
                (currentFullHistory.map (fun m => senderStr m.sender ++ ": " ++ m.text))
          let summarizationHistory : List ChatMessage :=
            [{ id := { time := pr1.1, tag := .summaryPromptTag }, sender := .user,
               text := summarizationPrompt }]
          let st2 := { pr1.2 with trace := pr1.2.trace ++
            [DispatchEvent.complete summCfg.provider summCfg.apiKey h.model
              h.systemPrompt summarizationHistory] }
          match summOracle with
          | .error e => .error (e, st2)
          | .ok summary =>
            let pr2 := tick st2
            let summaryMessage : ChatMessage :=
              { id := { time := pr2.1, tag := .summaryTag }, sender := .agent,
                text := "(Résumé de l\x27historique): " ++ summary }
            .ok { apiHistory := [summaryMessage, userMessage],
                  st := { pr2.2 with messages := [summaryMessage, userMessage] } }
      else
        .ok { apiHistory := currentFullHistory, st := st }
    else
      .ok { apiHistory := if h.enabled = true then currentFullHistory else [userMessage],
            st := st }
  | none => .ok { apiHistory := [userMessage], st := st }

/-- Accumulator of a stream-consumption loop: the store contents, the
currentResponse accumulator, the recorded toolCalls variable, and whether
the loop broke out on an error chunk. -/
structure StreamAcc where
  msgs : List ChatMessage
  response : String
  calls : List ToolCall
  errored : Bool

/-- One iteration of the primary stream consumption loop (lines 1323-1371).
An error chunk turns the in-progress message into an error message and sets
the break flag.  A chunk with a non-empty text field extends
currentResponse and materializes it under agentMessageId (updating in place
when the message already exists, adding it otherwise).  A chunk with a
toolCalls field additionally records the calls and maps the in-progress
message to one carrying them with status executing_tool. -/
def chunkStep (aid : MsgId) (acc : StreamAcc) (c : Chunk) : StreamAcc :=
  match c.error with
  | some e =>
    { acc with
      msgs := addNodeMessage acc.msgs
        { id := aid, sender := .agent, text := e, isError := true },
      errored := true }
  | none =>
    match c.response with
    | none => acc
    | some r =>
      let acc1 :=
        match r.text with
        | some t =>
          if t = "" then acc
          else
            let resp := acc.response ++ t
            let msgs :=
              if acc.msgs.any (fun m => m.id = aid) then
                acc.msgs.map (fun m => if m.id = aid then { m with text := resp } else m)
              else
                addNodeMessage acc.msgs { id := aid, sender := .agent, text := resp }
            { acc with response := resp, msgs := msgs }
        | none => acc
      match r.toolCalls with
      | some tcs =>
        let toolMessage : ChatMessage :=
          { id := aid, sender := .agent, text := acc1.response,
            toolCalls := some tcs, status := some .executingTool }
        { acc1 with
          calls := tcs
          msgs := acc1.msgs.map (fun m => if m.id = aid then toolMessage else m) }
      | none => acc1

/-- The primary stream consumption loop (the for-await of lines 1323-1372):
iterate chunkStep, breaking out when an error chunk was handled. -/
def processChunks (aid : MsgId) : StreamAcc → List Chunk → StreamAcc
  | acc, [] => acc
  | acc, c :: rest =>
    let a := chunkStep aid acc c
    if a.errored = true then a else processChunks aid a rest

/-- The tool execution loop (lines 1375-1398): each recorded ToolCall is run
through the executor; success appends a tool_result message, a thrown error
appends an error-flagged tool_result for that call only, and the loop
continues with the remaining calls.  executeTool (utils/toolExecutor) is an
external effect passed in as an oracle; its ok value is the result text,
non-string results having already been rendered by JSON.stringify. -/
def runTools (exec : ToolCall → Except String String) :
    List ToolCall → List ChatMessage → Nat → List ChatMessage × Nat
  | [], msgs, clock => (msgs, clock)
  | tc :: rest, msgs, clock =>
    match exec tc with
    | .ok s =>
      runTools exec rest
        (addNodeMessage msgs
          { id := { time := clock, tag := .toolResultTag }, sender := .toolResult,
            text := s, toolCallId := some tc.id, toolName := some tc.name })
        (clock + 1)
    | .error e =>
      runTools exec rest
        (addNodeMessage msgs
          { id := { time := clock, tag := .toolErrorTag }, sender := .toolResult,
            text := "Erreur: " ++ e, toolCallId := some tc.id, toolName := some tc.name,
            isError := true })
        (clock + 1)

/-- The messages the tool loop produces, in issuance order, when every
append lands on a fresh id; runTools reduces to appending these (see
runTools_spec below). -/
def toolMsgs (exec : ToolCall → Except String String) :
    List ToolCall → Nat → List ChatMessage
  | [], _ => []
  | tc :: rest, clock =>
    (match exec tc with
     | .ok s =>
       { id := { time := clock, tag := .toolResultTag }, sender := .toolResult,
         text := s, toolCallId := some tc.id, toolName := some tc.name }
     | .error e =>
       { id := { time := clock, tag := .toolErrorTag }, sender := .toolResult,
         text := "Erreur: " ++ e, toolCallId := some tc.id, toolName := some tc.name,
         isError := true }) :: toolMsgs exec rest (clock + 1)

/-- Clearing of the executing_tool status after the whole batch
(lines 1400-1404). -/
def clearExecuting (msgs : List ChatMessage) : List ChatMessage :=
  msgs.map (fun m => if m.status = some .executingTool then { m with status := none } else m)

/-- Rendering of an optional string interpolated by a JS template literal:
an absent value prints as undefined. -/
def optStr : Option String → String
  | some s => s
  | none => "undefined"

/-- One iteration of the follow-up stream consumption loop (lines
1447-1478): like chunkStep but with no tool-call branch. -/
def followStep (fid : MsgId) (acc : StreamAcc) (c : Chunk) : StreamAcc :=
  match c.error with
  | some e =>
    { acc with
      msgs := addNodeMessage acc.msgs
        { id := fid, sender := .agent, text := e, isError := true },
      errored := true }
  | none =>
    match c.response with
    | none => acc
    | some r =>
      match r.text with
      | some t =>
        if t = "" then acc
        else
          let resp := acc.response ++ t
          let msgs :=
            if acc.msgs.any (fun m => m.id = fid) then
              acc.msgs.map (fun m => if m.id = fid then { m with text := resp } else m)
            else
              addNodeMessage acc.msgs { id := fid, sender := .agent, text := resp }
          { acc with response := resp, msgs := msgs }
      | none => acc

/-- The follow-up stream consumption loop (the for-await of lines
1447-1478), breaking out when an error chunk was handled. -/
def processFollowChunks (fid : MsgId) : StreamAcc → List Chunk → StreamAcc
  | acc, [] => acc
  | acc, c :: rest =>
    let a := followStep fid acc c
    if a.errored = true then a else processFollowChunks fid a rest

/-- The history preparation of the follow-up call (lines 1410-1431):
tool_result messages are filtered out of the call history and, when any
exist, one synthetic user message listing them as labeled context is pushed
after the remainder.  Returns the call history and the (possibly ticked)
state; the store itself is not modified here. -/
def followUpPrep (trf : String → String) (st : TurnState) :
    List ChatMessage × TurnState :=
  let updatedMessages := st.messages
  let messagesWithoutToolResults := updatedMessages.filter (fun m => m.sender ≠ .toolResult)
  let toolResults := updatedMessages.filter (fun m => m.sender = .toolResult)
  if 0 < toolResults.length then
    let toolResultsSummary := String.intercalate "\n\n"
      (toolResults.map (fun trm =>
        trf "tool_result_from" ++ " " ++ optStr trm.toolName ++ ": " ++ trm.text))
    let prc := tick st
    let contextMessage : ChatMessage :=
      { id := { time := prc.1, tag := .toolContextTag }, sender := .user,
        text := trf "tool_results_context" ++ ":\n\n" ++ toolResultsSummary ++
          "\n\n" ++ trf "analyze_results_request" }
    (messagesWithoutToolResults ++ [contextMessage], prc.2)
  else (messagesWithoutToolResults, st)

/-- The state after recording the follow-up dispatch event. -/
def followSt2 (trf : String → String) (agent : Agent) (cfg : LLMConfig)
    (st : TurnState) : TurnState :=
  let pr := followUpPrep trf st
  { pr.2 with trace := pr.2.trace ++
    [DispatchEvent.stream agent.llmProvider cfg.apiKey agent.model
      agent.systemPrompt pr.1 agent.tools agent.outputConfig] }

/-- The follow-up loop accumulator computed from the ticked state. -/
def followAcc (trf : String → String) (agent : Agent) (cfg : LLMConfig)
    (oc : Oracles) (st : TurnState) : StreamAcc :=
  processFollowChunks
    { time := (followSt2 trf agent cfg st).clock, tag := .followupTag }
    { msgs := (followSt2 trf agent cfg st).messages, response := "",
      calls := [], errored := false }
    oc.followChunks

/-- The state at the end of the follow-up loop (reached whether or not the
iterator then throws). -/
def followSt4 (trf : String → String) (agent : Agent) (cfg : LLMConfig)
    (oc : Oracles) (st : TurnState) : TurnState :=
  { (tick (followSt2 trf agent cfg st)).2 with
    messages := (followAcc trf agent cfg oc st).msgs }

def followUpPhase (trf : String → String) (agent : Agent) (cfg : LLMConfig)
    (oc : Oracles) (st : TurnState) : Except (String × TurnState) TurnState :=
  let st4 := followSt4 trf agent cfg oc st
  match (if (followAcc trf agent cfg oc st).errored = true
      then none else oc.followThrow) with
  | some e => .error (e, st4)
  | none => .ok st4

/-- The accumulator produced by consuming the primary stream from a given
entry state: exactly the value the dispatch-and-consume stage computes
before deciding on tool execution. -/
def primaryAcc (oc : Oracles) (st : TurnState) : StreamAcc :=
  processChunks { time := st.clock, tag := IdTag.agentTag }
    { msgs := st.messages, response := "", calls := [], errored := false }
    oc.primaryChunks

/-- The primary streaming dispatch event: issued — as written in the
source — with the render-time snapshot concatenated with the new user
message. -/
def primaryEv (agent : Agent) (cfg : LLMConfig) (snapshot : List ChatMessage)
    (userMessage : ChatMessage) : DispatchEvent :=
  DispatchEvent.stream agent.llmProvider cfg.apiKey agent.model
    agent.systemPrompt (snapshot ++ [userMessage]) agent.tools agent.outputConfig

/-- The state at the end of the primary stream loop: the dispatch recorded,
the agentMessageId clock tick taken, and the store as left by the loop. -/
def primarySt3 (agent : Agent) (cfg : LLMConfig) (oc : Oracles)
    (snapshot : List ChatMessage) (userMessage : ChatMessage)
    (st : TurnState) : TurnState :=
  { (tick { st with trace := st.trace ++
      [primaryEv agent cfg snapshot userMessage] }).2 with
    messages := (primaryAcc oc st).msgs }

/-- The state after tool execution and status clearing (lines 1375-1404). -/
def toolsSt5 (agent : Agent) (cfg : LLMConfig) (oc : Oracles)
    (snapshot : List ChatMessage) (userMessage : ChatMessage)
    (st : TurnState) : TurnState :=
  { primarySt3 agent cfg oc snapshot userMessage st with
    messages := clearExecuting (runTools oc.execTool (primaryAcc oc st).calls
      (primarySt3 agent cfg oc snapshot userMessage st).messages
      (primarySt3 agent cfg oc snapshot userMessage st).clock).1
    clock := (runTools oc.execTool (primaryAcc oc st).calls
      (primarySt3 agent cfg oc snapshot userMessage st).messages
      (primarySt3 agent cfg oc snapshot userMessage st).clock).2 }

/-- The dispatch-and-consume part of the try block (lines 1308-1480): the
primary stream call is issued — as written in the source — with the
render-time snapshot concatenated with the new user message, not with
conversationHistoryForAPI; its chunks are consumed, recorded tool calls are
executed and their statuses cleared, and the capability-gated follow-up
runs.  A stream-iterator throw not swallowed by an error-chunk break
propagates. -/
def streamPhase (trf : String → String) (agent : Agent) (cfg : LLMConfig)
    (oc : Oracles) (snapshot : List ChatMessage) (userMessage : ChatMessage)
    (st : TurnState) : Except (String × TurnState) TurnState :=
  match (if (primaryAcc oc st).errored = true then none else oc.primaryThrow) with
  | some e => .error (e, primarySt3 agent cfg oc snapshot userMessage st)
  | none =>
    if 0 < (primaryAcc oc st).calls.length then
      if (agent.capabilities.getD []).any (fun c => c = .chat) then
        followUpPhase trf agent cfg oc (toolsSt5 agent cfg oc snapshot userMessage st)
      else .ok (toolsSt5 agent cfg oc snapshot userMessage st)
    else .ok (primarySt3 agent cfg oc snapshot userMessage st)

/-- The try block of handleSendMessage (lines 1250-1480): the history
policy runs first, then the primary dispatch and everything after it. -/
def turnBody (trf : String → String) (agent : Agent) (cfg : LLMConfig)
    (llmConfigs : List LLMConfig) (oc : Oracles) (snapshot : List ChatMessage)
    (userMessage : ChatMessage) (st : TurnState) :
    Except (String × TurnState) TurnState :=
  match historyPhaseE trf agent llmConfigs oc.summarize snapshot userMessage st with
  | .error es => .error es
  | .ok hp => streamPhase trf agent cfg oc snapshot userMessage hp.st

/-- The state right after the executing flag is raised, the user-message
Date.now() tick is taken, and the user message is stored — the state
handleSendMessage computes just before looking up the provider config. -/
def entrySt (env : Env) (agent : Agent) (st0 : TurnState) : TurnState :=
  { messages := addNodeMessage st0.messages
      (mkUserMessage agent env.attachedFile (jsTrim env.userInput) st0.clock)
    executing := true
    clock := st0.clock + 1
    trace := st0.trace }

/-- handleSendMessage (lines 1195-1494): the whole submission handler, from
the empty-input and null-agent guards through the finally block that clears
the executing flag.  The catch appends an error-flagged agent message built
from the thrown error text. -/
def handleSendMessage (env : Env) (oc : Oracles) (st0 : TurnState) : TurnState :=
  if (jsTrim env.userInput) = "" ∧ env.attachedFile = none then st0
  else
    match env.agent with
    | none => st0
    | some agent =>
      match env.llmConfigs.find? (fun c => c.provider = agent.llmProvider) with
      | none => configErrorReturn agent (entrySt env agent st0)
      | some cfg =>
        if cfg.enabled = false ∨ cfg.apiKey = "" then
          configErrorReturn agent (entrySt env agent st0)
        else
          match turnBody env.tr agent cfg env.llmConfigs oc st0.messages
            (mkUserMessage agent env.attachedFile (jsTrim env.userInput) st0.clock)
            (entrySt env agent st0) with
          | .ok st => { st with executing := false }
          | .error es =>
            let prE := tick es.2
            let errM : ChatMessage :=
              { id := { time := prE.1, tag := .plain }, sender := .agent,
                text := "Erreur: " ++ es.1, isError := true }
            { prE.2 with
              messages := addNodeMessage prE.2.messages errM
              executing := false }

/-- The submit operation as exposed at the UI boundary: handleSendMessage is
reachable only through the form submit button and the textarea Enter
handler, and both controls carry disabled equal to isLoading (the button
also when the input is empty), so while the session is executing the submit
event cannot fire at all. -/
def submit (env : Env) (oc : Oracles) (st : TurnState) : TurnState :=
  if st.executing = true then st else handleSendMessage env oc st

/-
Embedding of the Gemini backend adapter (src/services/geminiService.ts) and
of the llmService dispatcher wrapping it.  JSON.parse, the JS builtin used
by formatHistory, is modelled by the jsonOk acceptance checker below
(ECMA-404 JSON text grammar, with the character classes written through
their code points); the parsed value itself is never inspected downstream,
so contents carry the source text of successfully parsed payloads.
-/

/-- Whether a character is JSON insignificant whitespace (space, tab, line
feed, carriage return). -/
def jsonWs (c : Char) : Bool :=
  decide (c.toNat = 32 ∨ c.toNat = 9 ∨ c.toNat = 10 ∨ c.toNat = 13)

/-- Drop leading JSON whitespace. -/
def skipWsL : List Char → List Char
  | [] => []
  | c :: rest => if jsonWs c then skipWsL rest else c :: rest

/-- Decimal digit test by code point. -/
def isDigitC (c : Char) : Bool :=
  decide (48 ≤ c.toNat ∧ c.toNat ≤ 57)

/-- Hexadecimal digit test by code point. -/
def isHexC (c : Char) : Bool :=
  decide ((48 ≤ c.toNat ∧ c.toNat ≤ 57) ∨ (65 ≤ c.toNat ∧ c.toNat ≤ 70) ∨
    (97 ≤ c.toNat ∧ c.toNat ≤ 102))

/-- Consume a maximal digit run, returning how many were consumed and the
rest of the input. -/
def jDigits : List Char → Nat × List Char
  | [] => (0, [])
  | c :: rest =>
    if isDigitC c then
      let pr := jDigits rest
      (pr.1 + 1, pr.2)
    else (0, c :: rest)

/-- Consume the body of a JSON string after its opening quote, honouring
the escape forms; returns the input after the closing quote. -/
def jStrBody : Nat → List Char → Option (List Char)
  | 0, _ => none
  | _, [] => none
  | fuel + 1, c :: rest =>
    if c.toNat = 34 then some rest
    else if c.toNat = 92 then
      match rest with
      | [] => none
      | e :: rest2 =>
        if decide (e.toNat = 34 ∨ e.toNat = 92 ∨ e.toNat = 47 ∨ e.toNat = 98 ∨
            e.toNat = 102 ∨ e.toNat = 110 ∨ e.toNat = 114 ∨ e.toNat = 116) then
          jStrBody fuel rest2
        else if e.toNat = 117 then
          match rest2 with
          | h1 :: h2 :: h3 :: h4 :: rest6 =>
            if isHexC h1 ∧ isHexC h2 ∧ isHexC h3 ∧ isHexC h4 then
              jStrBody fuel rest6
            else none
          | _ => none
        else none
    else if c.toNat < 32 then none
    else jStrBody fuel rest

/-- Consume the fraction and exponent parts of a JSON number if present. -/
def jFracExp (l : List Char) : Option (List Char) :=
  let step1 : Option (List Char) :=
    match l with
    | c :: rest =>
      if c.toNat = 46 then
        let pr := jDigits rest
        if pr.1 = 0 then none else some pr.2
      else some l
    | [] => some l
  match step1 with
  | none => none
  | some l2 =>
    match l2 with
    | c :: rest =>
      if decide (c.toNat = 101 ∨ c.toNat = 69) then
        let rest2 :=
          match rest with
          | d :: r2 => if decide (d.toNat = 43 ∨ d.toNat = 45) then r2 else rest
          | [] => rest
        let pr := jDigits rest2
        if pr.1 = 0 then none else some pr.2
      else some l2
    | [] => some l2

/-- Consume a JSON number. -/
def jNumber (l : List Char) : Option (List Char) :=
  let l1 :=
    match l with
    | c :: rest => if c.toNat = 45 then rest else l
    | [] => l
  match l1 with
  | [] => none
  | c :: rest =>
    if c.toNat = 48 then jFracExp rest
    else if isDigitC c then jFracExp (jDigits rest).2
    else none

/-- Consume an exact character sequence given by code points. -/
def jLit : List Nat → List Char → Option (List Char)
  | [], l => some l
  | _, [] => none
  | n :: ns, c :: rest => if c.toNat = n then jLit ns rest else none

mutual

/-- Consume one JSON value (leading whitespace allowed). -/
def jValue : Nat → List Char → Option (List Char)
  | 0, _ => none
  | fuel + 1, l =>
    match skipWsL l with
    | [] => none
    | c :: rest =>
      if c.toNat = 34 then jStrBody (fuel + 1) rest
      else if c.toNat = 123 then jObjTail fuel rest
      else if c.toNat = 91 then jArrTail fuel rest
      else if c.toNat = 116 then jLit [114, 117, 101] rest
      else if c.toNat = 102 then jLit [97, 108, 115, 101] rest
      else if c.toNat = 110 then jLit [117, 108, 108] rest
      else jNumber (c :: rest)

/-- Consume the remainder of a JSON array after the opening bracket. -/
def jArrTail : Nat → List Char → Option (List Char)
  | 0, _ => none
  | fuel + 1, l =>
    match skipWsL l with
    | [] => none
    | c :: rest =>
      if c.toNat = 93 then some rest
      else
        match jValue fuel (c :: rest) with
        | none => none
        | some l2 => jArrSep fuel l2

/-- Consume array continuations: a comma and a further value, or the
closing bracket. -/
def jArrSep : Nat → List Char → Option (List Char)
  | 0, _ => none
  | fuel + 1, l =>
    match skipWsL l with
    | [] => none
    | c :: rest =>
      if c.toNat = 93 then some rest
      else if c.toNat = 44 then
        match jValue fuel rest with
        | none => none
        | some l2 => jArrSep fuel l2
      else none

/-- Consume the remainder of a JSON object after the opening brace. -/
def jObjTail : Nat → List Char → Option (List Char)
  | 0, _ => none
  | fuel + 1, l =>
    match skipWsL l with
    | [] => none
    | c :: rest =>
      if c.toNat = 125 then some rest
      else if c.toNat = 34 then
        match jStrBody (fuel + 1) rest with
        | none => none
        | some l2 => jMemberVal fuel l2
      else none

/-- Consume the colon and value of an object member, then continuations. -/
def jMemberVal : Nat → List Char → Option (List Char)
  | 0, _ => none
  | fuel + 1, l =>
    match skipWsL l with
    | [] => none
    | c :: rest =>
      if c.toNat = 58 then
        match jValue fuel rest with
        | none => none
        | some l2 => jObjSep fuel l2
      else none

/-- Consume object continuations: a comma and a further member, or the
closing brace. -/
def jObjSep : Nat → List Char → Option (List Char)
  | 0, _ => none
  | fuel + 1, l =>
    match skipWsL l with
    | [] => none
    | c :: rest =>
      if c.toNat = 125 then some rest
      else if c.toNat = 44 then
        match skipWsL rest with
        | [] => none
        | c2 :: rest2 =>
          if c2.toNat = 34 then
            match jStrBody (fuel + 1) rest2 with
            | none => none
            | some l2 => jMemberVal fuel l2
          else none
      else none

end

/-- Whether JSON.parse accepts a string: one JSON value surrounded by
optional whitespace.  The fuel bounds the nesting depth and is ample for
any input of the given length. -/
def jsonOk (s : String) : Bool :=
  match jValue (s.data.length + 16) s.data with
  | some rest => (skipWsL rest).isEmpty
  | none => false

/-- One part of a Gemini content entry; parsed JSON payloads are carried as
their accepted source text. -/
inductive GPart
  | textPart (t : String)
  | inlineData (mimeType : String) (data : String)
  | functionCall (name : String) (argsJson : String)
  | functionResponse (name : String) (responseJson : String)
deriving DecidableEq, Repr

/-- One Gemini content entry (role plus parts). -/
structure GContent where
  role : String
  parts : List GPart
deriving DecidableEq, Repr

/-- Mapping of the tool-call list of an agent message, JSON.parse applied
to each argument payload (a failure is the thrown SyntaxError). -/
def formatAgentCalls : List ToolCall → Except String (List GPart)
  | [] => .ok []
  | tc :: rest =>
    if jsonOk tc.arguments then
      match formatAgentCalls rest with
      | .error e => .error e
      | .ok ps => .ok (GPart.functionCall tc.name tc.arguments :: ps)
    else .error ("SyntaxError: Unexpected token in JSON: " ++ tc.arguments)

/-- formatHistory of geminiService.ts: user messages become user contents
(with inline data when both image and mime type are truthy), agent messages
with a non-empty tool-call list become model contents of function calls
(JSON.parse on each argument payload), agent messages with non-empty text
become model text contents, other agent messages are skipped, and
tool_result messages with a truthy toolName become function contents with
JSON.parse applied to their text.  Any JSON.parse failure is thrown — this
runs before the try block of the streaming entry point. -/
def formatHistoryE : List ChatMessage → Except String (List GContent)
  | [] => .ok []
  | m :: rest =>
    let tail := formatHistoryE rest
    if m.sender = .user then
      let parts := [GPart.textPart m.text] ++
        (match m.image, m.mimeType with
         | some img, some mt =>
           if img ≠ "" ∧ mt ≠ "" then [GPart.inlineData mt img] else []
         | _, _ => [])
      match tail with
      | .error e => .error e
      | .ok cs => .ok ({ role := "user", parts := parts } :: cs)
    else if m.sender = .agent then
      match m.toolCalls with
      | some tcs =>
        if 0 < tcs.length then
          match formatAgentCalls tcs with
          | .error e => .error e
          | .ok ps =>
            match tail with
            | .error e => .error e
            | .ok cs => .ok ({ role := "model", parts := ps } :: cs)
        else if m.text ≠ "" then
          match tail with
          | .error e => .error e
          | .ok cs => .ok ({ role := "model", parts := [GPart.textPart m.text] } :: cs)
        else tail
      | none =>
        if m.text ≠ "" then
          match tail with
          | .error e => .error e
          | .ok cs => .ok ({ role := "model", parts := [GPart.textPart m.text] } :: cs)
        else tail
    else
      match m.toolName with
      | some tn =>
        if tn ≠ "" then
          if jsonOk m.text then
            match tail with
            | .error e => .error e
            | .ok cs =>
              .ok ({ role := "function",
                     parts := [GPart.functionResponse tn m.text] } :: cs)
          else .error ("SyntaxError: Unexpected token in JSON: " ++ m.text)
        else tail
      | none => tail

/-- A function call carried by an SDK chunk; args holds the serialized
argument payload (JSON.stringify of the wire value). -/
structure GFunctionCall where
  name : String
  args : String
deriving DecidableEq, Repr

/-- One chunk of the backend SDK stream as read by the adapter: an optional
text and the functionCalls list. -/
structure GChunk where
  text : Option String := none
  functionCalls : List GFunctionCall := []
deriving DecidableEq, Repr

/-- Behaviour of the network call and chunk iteration: either the awaited
call rejects, or it yields a chunk list followed by an optional exception
of the iterator. -/
def GNet : Type :=
  Except String (List GChunk × Option String)

/-- ToolCall values minted for a functionCalls chunk; the source ids are
tool-call dash Date.now() dash Math.random(), embedded as consecutive
counter values (fresh per mint, as in the JS intent). -/
def gMkToolCalls : Nat → List GFunctionCall → List ToolCall
  | _, [] => []
  | n, fc :: rest =>
    { id := "tool-call-" ++ toString n, name := fc.name, arguments := fc.args } ::
      gMkToolCalls (n + 1) rest

/-- The adapter's chunk loop: the first chunk with a non-empty
functionCalls list yields one terminal tool-calls Increment and returns
(second component true); every other chunk is passed through as a response
Increment. -/
def geminiConsume (clock : Nat) : List GChunk → List Chunk × Bool
  | [] => ([], false)
  | c :: rest =>
    if 0 < c.functionCalls.length then
      let payload : RespPayload :=
        { text := none, toolCalls := some (gMkToolCalls clock c.functionCalls) }
      ([{ response := some payload }], true)
    else
      let pr := geminiConsume clock rest
      ({ response := some { text := c.text, toolCalls := none } } :: pr.1, pr.2)

/-- The caught-failure Increment text of the Gemini adapter. -/
def geminiErrText (e : String) : String :=
  "Error: Could not get a response from Gemini. " ++ e

/-- geminiService.generateContentStream: formatTools, formatHistory and the
config assembly run before the try block, so a JSON.parse failure there is
thrown across the streaming boundary (Except.error); inside the try, a
rejected network call or a throwing chunk iterator is caught and surfaced
as one terminal error Increment.  The tools and output-config arguments
only shape the request object and do not affect the yielded Increments. -/
def geminiGenerateContentStream (history : List ChatMessage) (net : GNet)
    (clock : Nat) : Except String (List Chunk) :=
  match formatHistoryE history with
  | .error e => .error e
  | .ok _ =>
    match net with
    | .error e => .ok [{ error := some (geminiErrText e) }]
    | .ok pr =>
      let outs := geminiConsume clock pr.1
      if outs.2 = true then .ok outs.1
      else
        match pr.2 with
        | some e => .ok (outs.1 ++ [{ error := some (geminiErrText e) }])
        | none => .ok outs.1

/-- llmService.generateContentStream (the dispatcher), restricted to the
backends present in the sources: getServiceProvider maps Gemini — and,
through the default branch, any provider without a dedicated module in the
sources — to geminiService, and the dispatcher delegates with yield*, so an
exception of the backend generator propagates through it unchanged. -/
def llmGenerateContentStream (provider : LLMProvider) (history : List ChatMessage)
    (net : GNet) (clock : Nat) : Except String (List Chunk) :=
  match provider with
  | _ => geminiGenerateContentStream history net clock

/-- Freshness of a store with respect to the clock: every stored message was
minted at an earlier Date.now() reading.  This holds of any store built by
the embedded operations and rules out id collisions between turns. -/
def Fresh (msgs : List ChatMessage) (clock : Nat) : Prop :=
  ∀ m ∈ msgs, m.id.time < clock

/-- Number of streaming dispatches in a trace. -/
def streamCount (trace : List DispatchEvent) : Nat :=
  (trace.filter (fun e => e.isStream = true)).length

/-- Number of non-streaming (complete) dispatches in a trace. -/
def completeCount (trace : List DispatchEvent) : Nat :=
  (trace.filter (fun e => e.isStream = false)).length

/-- Number of tool_result messages in a store. -/
def toolResultCount (msgs : List ChatMessage) : Nat :=
  (msgs.filter (fun m => m.sender = .toolResult)).length

/-- The text increment carried by a chunk (empty when absent). -/
def chunkTextOf (c : Chunk) : String :=
  match c.response with
  | some r => r.text.getD ""
  | none => ""

/-- Ordered concatenation of the text increments of a chunk list. -/
def joinedTexts : List Chunk → String
  | [] => ""
  | c :: rest => chunkTextOf c ++ joinedTexts rest

/-- The materialized in-progress message for an accumulated response: absent
while the response is empty, a single agent message under the stream id
otherwise. -/
def respTail (aid : MsgId) (r : String) : List ChatMessage :=
  if r = "" then [] else [{ id := aid, sender := .agent, text := r }]

/-
Concrete fixtures: example configurations, stores and oracle outcomes used
to evaluate the verified statements on closed inputs.
-/

/-- A threshold set that only the message counter can reach (the spec's
compaction scenario uses messageCount = 5). -/
def exLimits : HistoryLimits :=
  { token := 1000000, word := 1000000, sentence := 1000000, message := 5 }

/-- An enabled history policy summarizing through Gemini. -/
def exHistCfg : HistoryConfig :=
  { enabled := true, llmProvider := .gemini, model := "gemini-pro", systemPrompt := "Summarize the conversation.", limits := exLimits }

/-- A Gemini chat agent carrying the example history policy. -/
def exAgent : Agent :=
  { llmProvider := .gemini, model := "gemini-pro", systemPrompt := "You are helpful.", tools := [], outputConfig := none, capabilities := some [.chat], historyConfig := some exHistCfg }

/-- The example agent without any history policy. -/
def exAgentPlain : Agent :=
  { exAgent with historyConfig := none }

/-- The policy-free example agent declaring one tool. -/
def exAgentTools : Agent :=
  { exAgentPlain with tools := [{ name := "get_weather", description := "Weather lookup", parameters := "\x7b\x7d" }] }

/-- The tool-declaring agent with an empty capability set (no chat). -/
def exAgentNoChat : Agent :=
  { exAgentTools with capabilities := some [] }

/-- An enabled Gemini provider configuration with a key. -/
def exCfg : LLMConfig :=
  { provider := .gemini, enabled := true, apiKey := "k" }

/-- A submission of the text bonjour to the example agent. -/
def exEnv : Env :=
  { agent := some exAgent, llmConfigs := [exCfg], userInput := "bonjour", attachedFile := none, tr := fun s => s }

/-- A plain-id message fixture. -/
def exMsg (i : Nat) (s : Sender) (t : String) : ChatMessage :=
  { id := { time := i, tag := .plain }, sender := s, text := t }

/-- Five prior messages, the store of the spec's compaction scenario. -/
def exHistory5 : List ChatMessage :=
  [exMsg 0 .user "a", exMsg 1 .agent "b", exMsg 2 .user "c", exMsg 3 .agent "d", exMsg 4 .user "e"]

/-- An idle session holding the five prior messages. -/
def exSt5 : TurnState :=
  { messages := exHistory5, executing := false, clock := 100, trace := [] }

/-- An idle empty session. -/
def exStEmpty : TurnState :=
  { messages := [], executing := false, clock := 100, trace := [] }

/-- A session whose executing flag is raised. -/
def exStBusy : TurnState :=
  { messages := [], executing := true, clock := 5, trace := [] }

/-- Oracle outcomes for a turn whose primary stream yields nothing and whose
summarization call succeeds. -/
def exOcEmpty : Oracles :=
  { summarize := .ok "tout va bien", primaryChunks := [], primaryThrow := none, execTool := fun _ => .ok "r", followChunks := [], followThrow := none }

/-- The empty-stream oracles with one text chunk on the primary stream. -/
def exOcText : Oracles :=
  { exOcEmpty with primaryChunks := [{ response := some { text := some "ok" } }] }

/-- The example threshold set with the message threshold lowered to one. -/
def exLimits1 : HistoryLimits :=
  { exLimits with message := 1 }

/-- The example agent with the message threshold lowered to one. -/
def exAgent1 : Agent :=
  { exAgent with historyConfig := some { exHistCfg with limits := exLimits1 } }

/-- The example submission aimed at the threshold-one agent. -/
def exEnv1 : Env :=
  { exEnv with agent := some exAgent1 }

/-- The example submission to an agent whose history policy summarizes
through a provider missing from the configuration list. -/
def exEnvNoSumm : Env :=
  { exEnv with agent := some { exAgent with historyConfig := some { exHistCfg with llmProvider := .mistral } } }

/-- Three tool calls as recorded from a stream. -/
def exToolCalls : List ToolCall :=
  [{ id := "1", name := "get_weather", arguments := "null" }, { id := "2", name := "get_time", arguments := "null" }, { id := "3", name := "get_news", arguments := "null" }]

/-- A tool executor that throws on the second call only. -/
def exExec : ToolCall → Except String String :=
  fun tc => if tc.id = "2" then .error "boom" else .ok ("res-" ++ tc.id)

/-- Oracles for a turn whose primary stream yields one tool-call chunk, with
the throwing-on-the-second-call executor and a text follow-up. -/
def exOcTools : Oracles :=
  { exOcEmpty with primaryChunks := [{ response := some { toolCalls := some exToolCalls } }], execTool := exExec, followChunks := [{ response := some { text := some "18" } }] }

/-- The example submission to the tool-declaring chat agent. -/
def exEnvTools : Env :=
  { exEnv with agent := some exAgentTools }

/-- The example submission to the policy-free agent. -/
def exEnvPlain : Env :=
  { exEnv with agent := some exAgentPlain }

/-- The example submission to the tool-declaring no-chat agent. -/
def exEnvNoChat : Env :=
  { exEnv with agent := some exAgentNoChat }

section Lemmas

variable {aid : MsgId}

/-- Mapping a function that fixes every element of a list is the identity. -/
theorem listMapIdOn {α : Type} {l : List α} {f : α → α}
    (h : ∀ x ∈ l, f x = x) : l.map f = l := by
  induction l with
  | nil => rfl
  | cons a t ih =>
    simp only [List.map_cons]
    rw [h a (by simp), ih (fun x hx => h x (by simp [hx]))]

/-- addNodeMessage appends when no stored message carries the new id. -/
theorem addNodeMessage_not_mem {msgs : List ChatMessage} {m : ChatMessage}
    (h : ∀ x ∈ msgs, ¬ x.id = m.id) : addNodeMessage msgs m = msgs ++ [m] := by
  unfold addNodeMessage
  rw [if_neg]
  intro hany
  obtain ⟨x, hx, hid⟩ := List.any_eq_true.mp hany
  exact h x hx (by simpa using hid)

/-- After addNodeMessage, any stored message carrying the new id is the new
message itself. -/
theorem addNodeMessage_id_eq {msgs : List ChatMessage} {m : ChatMessage} :
    ∀ x ∈ addNodeMessage msgs m, x.id = m.id → x = m := by
  intro x hx hid
  unfold addNodeMessage at hx
  by_cases hany : msgs.any (fun y => y.id = m.id)
  · rw [if_pos hany] at hx
    obtain ⟨y, _, hy⟩ := List.mem_map.mp hx
    by_cases hyid : y.id = m.id
    · rw [if_pos hyid] at hy
      exact hy.symm
    · rw [if_neg hyid] at hy
      exact absurd (hy ▸ hid) hyid
  · rw [if_neg hany] at hx
    rcases List.mem_append.mp hx with hmem | hmem
    · exact absurd (List.any_eq_true.mpr ⟨x, hmem, by simpa using hid⟩) hany
    · simpa using hmem

/-- addNodeMessage preserves a prefix of messages whose ids all differ from
the added id, extending only the remainder. -/
theorem addNodeMessage_prefix (m : ChatMessage) (rest : List ChatMessage)
    {pre : List ChatMessage} (hpre : ∀ x ∈ pre, ¬ x.id = m.id) :
    ∃ rest2, addNodeMessage (pre ++ rest) m = pre ++ rest2 := by
  unfold addNodeMessage
  by_cases hany : (pre ++ rest).any (fun y => y.id = m.id)
  · rw [if_pos hany]
    refine ⟨rest.map (fun x => if x.id = m.id then m else x), ?_⟩
    rw [List.map_append, listMapIdOn]
    intro x hx
    rw [if_neg (hpre x hx)]
  · rw [if_neg hany]
    exact ⟨rest ++ [m], by rw [List.append_assoc]⟩

/-- Ids present after addNodeMessage: an old id or the added one. -/
theorem addNodeMessage_ids {msgs : List ChatMessage} {m : ChatMessage} :
    ∀ x ∈ addNodeMessage msgs m, (∃ y ∈ msgs, x.id = y.id) ∨ x.id = m.id := by
  intro x hx
  unfold addNodeMessage at hx
  by_cases hany : msgs.any (fun y => y.id = m.id)
  · rw [if_pos hany] at hx
    obtain ⟨y, hy, hxy⟩ := List.mem_map.mp hx
    by_cases hyid : y.id = m.id
    · rw [if_pos hyid] at hxy
      exact Or.inr (hxy ▸ rfl)
    · rw [if_neg hyid] at hxy
      exact Or.inl ⟨y, hy, hxy ▸ rfl⟩
  · rw [if_neg hany] at hx
    rcases List.mem_append.mp hx with hmem | hmem
    · exact Or.inl ⟨x, hmem, rfl⟩
    · exact Or.inr (by simpa using congrArg ChatMessage.id (List.mem_singleton.mp hmem))

/-- Freshness is monotone in the clock. -/
theorem Fresh.mono {msgs : List ChatMessage} {c c' : Nat}
    (h : Fresh msgs c) (hc : c ≤ c') : Fresh msgs c' :=
  fun m hm => lt_of_lt_of_le (h m hm) hc

/-- Freshness over an append. -/
theorem Fresh.append {l1 l2 : List ChatMessage} {c : Nat}
    (h1 : Fresh l1 c) (h2 : Fresh l2 c) : Fresh (l1 ++ l2) c := by
  intro m hm
  rcases List.mem_append.mp hm with hm | hm
  · exact h1 m hm
  · exact h2 m hm

/-- A fresh store never carries a given current-or-later id, so freshness
turns addNodeMessage into an append. -/
theorem addNodeMessage_fresh {msgs : List ChatMessage} {m : ChatMessage} {c : Nat}
    (h : Fresh msgs c) (hm : c ≤ m.id.time) :
    addNodeMessage msgs m = msgs ++ [m] := by
  refine addNodeMessage_not_mem ?_
  intro x hx hxid
  exact absurd (hxid ▸ h x hx) (by omega)

/-- chunkStep on an error chunk: the in-progress message becomes the error
message and the break flag is set. -/
theorem chunkStep_error_some {acc : StreamAcc} {c : Chunk} {e : String}
    (h : c.error = some e) :
    chunkStep aid acc c =
      { acc with
        msgs := addNodeMessage acc.msgs
          { id := aid, sender := .agent, text := e, isError := true },
        errored := true } := by
  obtain ⟨ce, cr⟩ := c
  simp only at h
  subst h
  rfl

/-- chunkStep on a non-error chunk does not set the break flag. -/
theorem chunkStep_errored_none {acc : StreamAcc} {c : Chunk}
    (h : c.error = none) : (chunkStep aid acc c).errored = acc.errored := by
  obtain ⟨ce, cr⟩ := c
  simp only at h
  subst h
  rcases cr with _ | ⟨rt, rtc⟩
  · rfl
  · rcases rt with _ | t
    · rcases rtc with _ | tcs <;> rfl
    · rcases rtc with _ | tcs <;>
        by_cases h0 : t = "" <;>
          simp only [chunkStep, h0, if_pos, if_neg] <;> split <;> rfl

/-- chunkStep never shortens the accumulated response. -/
theorem chunkStep_response_len {acc : StreamAcc} {c : Chunk} :
    acc.response.length ≤ (chunkStep aid acc c).response.length := by
  obtain ⟨ce, cr⟩ := c
  rcases ce with _ | e
  · rcases cr with _ | ⟨rt, rtc⟩
    · exact le_refl _
    · rcases rt with _ | t
      · rcases rtc with _ | tcs <;> exact le_refl _
      · rcases rtc with _ | tcs <;>
          by_cases h0 : t = "" <;>
            simp [chunkStep, h0, String.length_append]
  · exact le_refl _

/-- chunkStep preserves a stored prefix whose ids differ from the stream id,
changing or extending only the remainder. -/
theorem chunkStep_prefix (c : Chunk) {acc : StreamAcc} {pre rest : List ChatMessage}
    (hacc : acc.msgs = pre ++ rest) (hpre : ∀ x ∈ pre, ¬ x.id = aid) :
    ∃ rest2, (chunkStep aid acc c).msgs = pre ++ rest2 := by
  obtain ⟨ce, cr⟩ := c
  rcases ce with _ | e
  · rcases cr with _ | ⟨rt, rtc⟩
    · exact ⟨rest, hacc⟩
    · have step1 : ∃ rest1,
          (chunkStep aid acc { error := none, response := some { text := rt, toolCalls := rtc } }).msgs
            = pre ++ rest1 := by
        rcases rt with _ | t
        · rcases rtc with _ | tcs
          · exact ⟨rest, hacc⟩
          · refine ⟨rest.map (fun m => if m.id = aid then
              { id := aid, sender := .agent, text := acc.response,
                toolCalls := some tcs, status := some .executingTool } else m), ?_⟩
            simp only [chunkStep, hacc, List.map_append]
            rw [listMapIdOn (fun x hx => by rw [if_neg (hpre x hx)])]
        · by_cases h0 : t = ""
          · rcases rtc with _ | tcs
            · exact ⟨rest, by simp only [chunkStep, h0, if_pos]; exact hacc⟩
            · refine ⟨rest.map (fun m => if m.id = aid then
                { id := aid, sender := .agent, text := acc.response,
                  toolCalls := some tcs, status := some .executingTool } else m), ?_⟩
              simp only [chunkStep, h0, if_pos, hacc, List.map_append]
              rw [listMapIdOn (fun x hx => by rw [if_neg (hpre x hx)])]
          · have hbase : ∃ rest1,
                (if acc.msgs.any (fun m => m.id = aid) then
                  acc.msgs.map (fun m => if m.id = aid then
                    { m with text := acc.response ++ t } else m)
                else
                  addNodeMessage acc.msgs
                    { id := aid, sender := .agent, text := acc.response ++ t })
                  = pre ++ rest1 := by
              by_cases hany : acc.msgs.any (fun m => m.id = aid)
              · refine ⟨rest.map (fun m => if m.id = aid then
                  { m with text := acc.response ++ t } else m), ?_⟩
                rw [if_pos hany, hacc, List.map_append,
                  listMapIdOn (fun x hx => by rw [if_neg (hpre x hx)])]
              · rw [if_neg hany, hacc]
                exact addNodeMessage_prefix
                  { id := aid, sender := .agent, text := acc.response ++ t }
                  rest hpre
            obtain ⟨rest1, hrest1⟩ := hbase
            rcases rtc with _ | tcs
            · exact ⟨rest1, by simp only [chunkStep, h0, if_neg, not_false_iff]; exact hrest1⟩
            · refine ⟨rest1.map (fun m => if m.id = aid then
                { id := aid, sender := .agent, text := acc.response ++ t,
                  toolCalls := some tcs, status := some .executingTool } else m), ?_⟩
              simp only [chunkStep, h0, if_neg, not_false_iff]
              rw [hrest1, List.map_append,
                listMapIdOn (fun x hx => by rw [if_neg (hpre x hx)])]
      exact step1
  · have hms : (chunkStep aid acc { error := some e, response := cr }).msgs
        = addNodeMessage acc.msgs
            { id := aid, sender := .agent, text := e, isError := true } := rfl
    rw [hms, hacc]
    exact addNodeMessage_prefix _ rest hpre

/-- Ids in a store after a map that only rewrites the stream id. -/
theorem mapReplace_ids {msgs : List ChatMessage} {g : ChatMessage → ChatMessage}
    (hg : ∀ m, (g m).id = aid) :
    ∀ x ∈ msgs.map (fun m => if m.id = aid then g m else m),
      (∃ y ∈ msgs, x.id = y.id) ∨ x.id = aid := by
  intro x hx
  obtain ⟨y, hy, hxy⟩ := List.mem_map.mp hx
  by_cases hyid : y.id = aid
  · rw [if_pos hyid] at hxy
    exact Or.inr (hxy ▸ hg y)
  · rw [if_neg hyid] at hxy
    exact Or.inl ⟨y, hy, hxy ▸ rfl⟩

/-- Ids present after chunkStep: an old id or the stream id. -/
theorem chunkStep_ids {acc : StreamAcc} {c : Chunk} :
    ∀ x ∈ (chunkStep aid acc c).msgs,
      (∃ y ∈ acc.msgs, x.id = y.id) ∨ x.id = aid := by
  obtain ⟨ce, cr⟩ := c
  rcases ce with _ | e
  · rcases cr with _ | ⟨rt, rtc⟩
    · exact fun x hx => Or.inl ⟨x, hx, rfl⟩
    · rcases rt with _ | t
      · rcases rtc with _ | tcs
        · exact fun x hx => Or.inl ⟨x, hx, rfl⟩
        · exact mapReplace_ids (fun m => rfl)
      · by_cases h0 : t = ""
        · subst h0
          rcases rtc with _ | tcs
          · exact fun x hx => Or.inl ⟨x, hx, rfl⟩
          · exact mapReplace_ids (fun m => rfl)
        · have hbase : ∀ x ∈ (if acc.msgs.any (fun m => m.id = aid) then
              acc.msgs.map (fun m => if m.id = aid then
                { m with text := acc.response ++ t } else m)
            else
              addNodeMessage acc.msgs
                { id := aid, sender := .agent, text := acc.response ++ t }),
              (∃ y ∈ acc.msgs, x.id = y.id) ∨ x.id = aid := by
            by_cases hany : acc.msgs.any (fun m => m.id = aid)
            · rw [if_pos hany]
              intro x hx
              obtain ⟨y, hy, hxy⟩ := List.mem_map.mp hx
              by_cases hyid : y.id = aid
              · rw [if_pos hyid] at hxy
                exact Or.inl ⟨y, hy, by rw [← hxy]⟩
              · rw [if_neg hyid] at hxy
                exact Or.inl ⟨y, hy, hxy ▸ rfl⟩
            · rw [if_neg hany]
              exact addNodeMessage_ids
          rcases rtc with _ | tcs
          · intro x hx
            refine hbase x ?_
            simpa only [chunkStep, h0, if_neg, not_false_iff] using hx
          · intro x hx
            have hx2 := hx
            simp only [chunkStep, h0, if_neg, not_false_iff] at hx2
            obtain ⟨y, hy, hxy⟩ := List.mem_map.mp hx2
            by_cases hyid : y.id = aid
            · rw [if_pos hyid] at hxy
              exact Or.inr (by rw [← hxy])
            · rw [if_neg hyid] at hxy
              exact hxy ▸ hbase y hy
  · intro x hx
    have hms : (chunkStep aid acc { error := some e, response := cr }).msgs
        = addNodeMessage acc.msgs
            { id := aid, sender := .agent, text := e, isError := true } := rfl
    rw [hms] at hx
    exact addNodeMessage_ids x hx

/-- Splitting a chunk list: the loop either breaks inside the first part or
continues into the second from the intermediate accumulator. -/
theorem processChunks_append {acc : StreamAcc} {l1 l2 : List Chunk}
    (hacc : acc.errored = false) :
    processChunks aid acc (l1 ++ l2) =
      (if (processChunks aid acc l1).errored = true then processChunks aid acc l1
       else processChunks aid (processChunks aid acc l1) l2) := by
  induction l1 generalizing acc with
  | nil =>
    simp only [List.nil_append, processChunks, hacc]
    rw [if_neg (by decide : ¬ (false = true))]
  | cons c t ih =>
    simp only [List.cons_append, processChunks]
    by_cases hb : (chunkStep aid acc c).errored = true
    · simp [hb]
    · rw [if_neg hb, if_neg hb]
      exact ih (Bool.eq_false_iff.mpr hb)

/-- The loop does not break over error-free chunks. -/
theorem processChunks_errored_none {acc : StreamAcc} {l : List Chunk}
    (hl : ∀ c ∈ l, c.error = none) :
    (processChunks aid acc l).errored = acc.errored := by
  induction l generalizing acc with
  | nil => rfl
  | cons c t ih =>
    simp only [processChunks]
    have hst : (chunkStep aid acc c).errored = acc.errored :=
      chunkStep_errored_none (hl c (by simp))
    by_cases hb : (chunkStep aid acc c).errored = true
    · rw [if_pos hb]
      rw [hst] at hb
      rw [hst, hb]
    · rw [if_neg hb]
      rw [ih (fun x hx => hl x (by simp [hx])), hst]

/-- The loop preserves a stored prefix whose ids differ from the stream
id. -/
theorem processChunks_prefix {acc : StreamAcc} {l : List Chunk}
    {pre rest : List ChatMessage}
    (hacc : acc.msgs = pre ++ rest) (hpre : ∀ x ∈ pre, ¬ x.id = aid) :
    ∃ rest2, (processChunks aid acc l).msgs = pre ++ rest2 := by
  induction l generalizing acc rest with
  | nil => exact ⟨rest, hacc⟩
  | cons c t ih =>
    simp only [processChunks]
    obtain ⟨rest1, hrest1⟩ := chunkStep_prefix c hacc hpre
    by_cases hb : (chunkStep aid acc c).errored = true
    · rw [if_pos hb]
      exact ⟨rest1, hrest1⟩
    · rw [if_neg hb]
      exact ih hrest1

/-- Ids present after the loop: an old id or the stream id. -/
theorem processChunks_ids {acc : StreamAcc} {l : List Chunk} :
    ∀ x ∈ (processChunks aid acc l).msgs,
      (∃ y ∈ acc.msgs, x.id = y.id) ∨ x.id = aid := by
  induction l generalizing acc with
  | nil => exact fun x hx => Or.inl ⟨x, hx, rfl⟩
  | cons c t ih =>
    intro x hx
    simp only [processChunks] at hx
    by_cases hb : (chunkStep aid acc c).errored = true
    · rw [if_pos hb] at hx
      exact chunkStep_ids x hx
    · rw [if_neg hb] at hx
      rcases ih x hx with ⟨y, hy, hxy⟩ | hid
      · rcases chunkStep_ids y hy with ⟨z, hz, hyz⟩ | hyid
        · exact Or.inl ⟨z, hz, hxy.trans hyz⟩
        · exact Or.inr (hxy.trans hyid)
      · exact Or.inr hid

/-- The accumulated response never shrinks across the loop. -/
theorem processChunks_response_len {acc : StreamAcc} {l : List Chunk} :
    acc.response.length ≤ (processChunks aid acc l).response.length := by
  induction l generalizing acc with
  | nil => exact le_refl _
  | cons c t ih =>
    simp only [processChunks]
    by_cases hb : (chunkStep aid acc c).errored = true
    · rw [if_pos hb]
      exact chunkStep_response_len
    · rw [if_neg hb]
      exact le_trans chunkStep_response_len ih

/-- A string extended on the right by a non-empty string is non-empty. -/
theorem strAppendNe {s t : String} (h : t ≠ "") : s ++ t ≠ "" := by
  intro he
  have hd : (s ++ t).data = ([] : List Char) := congrArg String.data he
  rw [String.data_append, List.append_eq_nil] at hd
  exact h (by cases t with | mk d => simp_all)

/-- Over text-only chunks (no error, no tool calls) the loop keeps the store
equal to the untouched base followed by the materialized in-progress
message, whose text is the accumulated response. -/
theorem processChunks_textInv {msgs0 : List ChatMessage} {l : List Chunk}
    (hm0 : ∀ x ∈ msgs0, ¬ x.id = aid)
    (hok : ∀ c ∈ l, c.error = none ∧ ∀ r, c.response = some r → r.toolCalls = none) :
    ∀ resp cs, processChunks aid
        { msgs := msgs0 ++ respTail aid resp, response := resp,
          calls := cs, errored := false } l
      = { msgs := msgs0 ++ respTail aid (resp ++ joinedTexts l),
          response := resp ++ joinedTexts l, calls := cs, errored := false } := by
  induction l with
  | nil =>
    intro resp cs
    simp only [processChunks, joinedTexts, String.append_empty]
  | cons c t ih =>
    intro resp cs
    obtain ⟨hce, hcr⟩ := hok c (by simp)
    have ihg := ih (fun x hx => hok x (by simp [hx]))
    obtain ⟨ce, cr⟩ := c
    simp only at hce
    subst hce
    rcases cr with _ | ⟨rt, rtc⟩
    · have hjt : resp ++ joinedTexts ({ error := none, response := none } :: t)
          = resp ++ joinedTexts t := by
        rw [joinedTexts, show chunkTextOf { error := none, response := none } = ""
          from rfl, String.empty_append]
      rw [hjt]
      have hstep : chunkStep aid
          { msgs := msgs0 ++ respTail aid resp, response := resp,
            calls := cs, errored := false }
          { error := none, response := none }
        = { msgs := msgs0 ++ respTail aid resp, response := resp,
            calls := cs, errored := false } := rfl
      simp only [processChunks, hstep]
      rw [if_neg (by decide : ¬ (false = true))]
      exact ihg resp cs
    · have hrtc : rtc = none := hcr { text := rt, toolCalls := rtc } rfl
      subst hrtc
      rcases rt with _ | t0
      · have hjt : resp ++ joinedTexts
            ({ error := none, response := some { text := none, toolCalls := none } } :: t)
            = resp ++ joinedTexts t := by
          rw [joinedTexts, show chunkTextOf
            { error := none, response := some { text := none, toolCalls := none } } = ""
            from rfl, String.empty_append]
        rw [hjt]
        have hstep : chunkStep aid
            { msgs := msgs0 ++ respTail aid resp, response := resp,
              calls := cs, errored := false }
            { error := none, response := some { text := none, toolCalls := none } }
          = { msgs := msgs0 ++ respTail aid resp, response := resp,
              calls := cs, errored := false } := rfl
        simp only [processChunks, hstep]
        rw [if_neg (by decide : ¬ (false = true))]
        exact ihg resp cs
      · by_cases h0 : t0 = ""
        · subst h0
          have hjt : resp ++ joinedTexts
              ({ error := none, response := some { text := some "", toolCalls := none } } :: t)
              = resp ++ joinedTexts t := by
            rw [joinedTexts, show chunkTextOf
              { error := none, response := some { text := some "", toolCalls := none } } = ""
              from rfl, String.empty_append]
          rw [hjt]
          have hstep : chunkStep aid
              { msgs := msgs0 ++ respTail aid resp, response := resp,
                calls := cs, errored := false }
              { error := none, response := some { text := some "", toolCalls := none } }
            = { msgs := msgs0 ++ respTail aid resp, response := resp,
                calls := cs, errored := false } := by
            simp only [chunkStep]
            split
            next => rfl
            next h => exact absurd (by trivial) h
          simp only [processChunks, hstep]
          rw [if_neg (by decide : ¬ (false = true))]
          exact ihg resp cs
        · have hstep : chunkStep aid
              { msgs := msgs0 ++ respTail aid resp, response := resp,
                calls := cs, errored := false }
              { error := none, response := some { text := some t0, toolCalls := none } }
            = { msgs := msgs0 ++ respTail aid (resp ++ t0), response := resp ++ t0,
                calls := cs, errored := false } := by
            simp only [chunkStep]
            rw [if_neg h0]
            by_cases hre : resp = ""
            · subst hre
              have hrt0 : respTail aid "" = [] := by rw [respTail, if_pos rfl]
              rw [hrt0, List.append_nil]
              have hany : msgs0.any (fun m => m.id = aid) = false :=
                List.any_eq_false.mpr (fun x hx => by simpa using hm0 x hx)
              rw [if_neg (by rw [hany]; exact Bool.false_ne_true)]
              rw [addNodeMessage_not_mem (fun x hx => hm0 x hx)]
              rw [show respTail aid ("" ++ t0)
                = [{ id := aid, sender := .agent, text := "" ++ t0 }]
                from by rw [respTail, if_neg (strAppendNe h0)]]
            · have htail : respTail aid resp =
                  [{ id := aid, sender := .agent, text := resp }] := by
                rw [respTail, if_neg hre]
              have hany : (msgs0 ++ respTail aid resp).any (fun m => m.id = aid) = true := by
                rw [List.any_eq_true]
                refine ⟨{ id := aid, sender := .agent, text := resp }, ?_, by simp⟩
                rw [htail]
                exact List.mem_append.mpr (Or.inr (by simp))
              rw [if_pos hany, htail, List.map_append,
                listMapIdOn (fun x hx => by rw [if_neg (hm0 x hx)])]
              rw [show respTail aid (resp ++ t0)
                = [{ id := aid, sender := .agent, text := resp ++ t0 }]
                from by rw [respTail, if_neg (strAppendNe h0)]]
              simp
          have hjt : resp ++ joinedTexts
              ({ error := none, response := some { text := some t0, toolCalls := none } } :: t)
              = (resp ++ t0) ++ joinedTexts t := by
            rw [joinedTexts, show chunkTextOf
              { error := none, response := some { text := some t0, toolCalls := none } } = t0
              from rfl, String.append_assoc]
          rw [hjt]
          simp only [processChunks, hstep]
          rw [if_neg (by decide : ¬ (false = true))]
          exact ihg (resp ++ t0) cs

/-- followStep preserves a stored prefix whose ids differ from the
follow-up stream id. -/
theorem followStep_prefix {fid : MsgId} (c : Chunk) {acc : StreamAcc}
    {pre rest : List ChatMessage}
    (hacc : acc.msgs = pre ++ rest) (hpre : ∀ x ∈ pre, ¬ x.id = fid) :
    ∃ rest2, (followStep fid acc c).msgs = pre ++ rest2 := by
  obtain ⟨ce, cr⟩ := c
  rcases ce with _ | e
  · rcases cr with _ | ⟨rt, rtc⟩
    · exact ⟨rest, hacc⟩
    · rcases rt with _ | t
      · exact ⟨rest, hacc⟩
      · by_cases h0 : t = ""
        · exact ⟨rest, by simp only [followStep, h0, if_pos]; exact hacc⟩
        · simp only [followStep]
          rw [if_neg h0]
          by_cases hany : acc.msgs.any (fun m => m.id = fid)
          · refine ⟨rest.map (fun m => if m.id = fid then
              { m with text := acc.response ++ t } else m), ?_⟩
            rw [if_pos hany, hacc, List.map_append,
              listMapIdOn (fun x hx => by rw [if_neg (hpre x hx)])]
          · rw [if_neg hany, hacc]
            exact addNodeMessage_prefix _ rest hpre
  · have hms : (followStep fid acc { error := some e, response := cr }).msgs
        = addNodeMessage acc.msgs
            { id := fid, sender := .agent, text := e, isError := true } := rfl
    rw [hms, hacc]
    exact addNodeMessage_prefix _ rest hpre

/-- Ids present after followStep: an old id or the follow-up stream id. -/
theorem followStep_ids {fid : MsgId} {acc : StreamAcc} {c : Chunk} :
    ∀ x ∈ (followStep fid acc c).msgs,
      (∃ y ∈ acc.msgs, x.id = y.id) ∨ x.id = fid := by
  obtain ⟨ce, cr⟩ := c
  rcases ce with _ | e
  · rcases cr with _ | ⟨rt, rtc⟩
    · exact fun x hx => Or.inl ⟨x, hx, rfl⟩
    · rcases rt with _ | t
      · exact fun x hx => Or.inl ⟨x, hx, rfl⟩
      · by_cases h0 : t = ""
        · intro x hx
          simp only [followStep, h0, if_pos] at hx
          exact Or.inl ⟨x, hx, rfl⟩
        · intro x hx
          simp only [followStep] at hx
          rw [if_neg h0] at hx
          by_cases hany : acc.msgs.any (fun m => m.id = fid)
          · rw [if_pos hany] at hx
            obtain ⟨y, hy, hxy⟩ := List.mem_map.mp hx
            by_cases hyid : y.id = fid
            · rw [if_pos hyid] at hxy
              exact Or.inl ⟨y, hy, by rw [← hxy]⟩
            · rw [if_neg hyid] at hxy
              exact Or.inl ⟨y, hy, hxy ▸ rfl⟩
          · rw [if_neg hany] at hx
            exact addNodeMessage_ids x hx
  · intro x hx
    have hms : (followStep fid acc { error := some e, response := cr }).msgs
        = addNodeMessage acc.msgs
            { id := fid, sender := .agent, text := e, isError := true } := rfl
    rw [hms] at hx
    exact addNodeMessage_ids x hx

/-- The follow-up loop preserves a stored prefix whose ids differ from the
follow-up stream id. -/
theorem processFollowChunks_prefix {fid : MsgId} {acc : StreamAcc} {l : List Chunk}
    {pre rest : List ChatMessage}
    (hacc : acc.msgs = pre ++ rest) (hpre : ∀ x ∈ pre, ¬ x.id = fid) :
    ∃ rest2, (processFollowChunks fid acc l).msgs = pre ++ rest2 := by
  induction l generalizing acc rest with
  | nil => exact ⟨rest, hacc⟩
  | cons c t ih =>
    simp only [processFollowChunks]
    obtain ⟨rest1, hrest1⟩ := followStep_prefix c hacc hpre
    by_cases hb : (followStep fid acc c).errored = true
    · rw [if_pos hb]
      exact ⟨rest1, hrest1⟩
    · rw [if_neg hb]
      exact ih hrest1

/-- Ids present after the follow-up loop: an old id or the follow-up
stream id. -/
theorem processFollowChunks_ids {fid : MsgId} {acc : StreamAcc} {l : List Chunk} :
    ∀ x ∈ (processFollowChunks fid acc l).msgs,
      (∃ y ∈ acc.msgs, x.id = y.id) ∨ x.id = fid := by
  induction l generalizing acc with
  | nil => exact fun x hx => Or.inl ⟨x, hx, rfl⟩
  | cons c t ih =>
    intro x hx
    simp only [processFollowChunks] at hx
    by_cases hb : (followStep fid acc c).errored = true
    · rw [if_pos hb] at hx
      exact followStep_ids x hx
    · rw [if_neg hb] at hx
      rcases ih x hx with ⟨y, hy, hxy⟩ | hid
      · rcases followStep_ids y hy with ⟨z, hz, hyz⟩ | hyid
        · exact Or.inl ⟨z, hz, hxy.trans hyz⟩
        · exact Or.inr (hxy.trans hyid)
      · exact Or.inr hid

/-- On a fresh store the tool loop is a pure append of the per-call result
messages, advancing the clock once per call. -/
theorem runTools_spec {exec : ToolCall → Except String String} :
    ∀ {tcs : List ToolCall} {msgs : List ChatMessage} {clock : Nat},
      Fresh msgs clock →
      runTools exec tcs msgs clock = (msgs ++ toolMsgs exec tcs clock, clock + tcs.length) := by
  intro tcs
  induction tcs with
  | nil => intro msgs clock _; simp [runTools, toolMsgs]
  | cons tc rest ih =>
    intro msgs clock hf
    have hfresh1 : ∀ m : ChatMessage, m.id.time = clock →
        addNodeMessage msgs m = msgs ++ [m] := fun m hm =>
      addNodeMessage_fresh hf (le_of_eq hm.symm)
    have hfresh2 : ∀ m : ChatMessage, m.id.time = clock →
        Fresh (msgs ++ [m]) (clock + 1) := by
      intro m hm
      refine Fresh.append (hf.mono (by omega)) ?_
      intro x hx
      rw [List.mem_singleton.mp hx, hm]
      omega
    cases hex : exec tc with
    | ok s =>
      simp only [runTools, toolMsgs, hex, List.length_cons]
      rw [hfresh1 _ rfl, ih (hfresh2 _ rfl), List.append_assoc, List.singleton_append]
      congr 1
      omega
    | error e =>
      simp only [runTools, toolMsgs, hex, List.length_cons]
      rw [hfresh1 _ rfl, ih (hfresh2 _ rfl), List.append_assoc, List.singleton_append]
      congr 1
      omega

/-- The tool loop yields exactly one result message per call. -/
theorem toolMsgs_length {exec : ToolCall → Except String String} :
    ∀ (tcs : List ToolCall) (clock : Nat),
      (toolMsgs exec tcs clock).length = tcs.length := by
  intro tcs
  induction tcs with
  | nil => intro clock; rfl
  | cons tc rest ih =>
    intro clock
    cases hex : exec tc <;> simp [toolMsgs, hex, ih]

/-- Fieldwise description of the i-th tool result message: it belongs to
the i-th call and is error-flagged exactly when that call threw. -/
theorem toolMsgs_get {exec : ToolCall → Except String String} :
    ∀ (tcs : List ToolCall) (clock i : Nat) (tc : ToolCall) (m : ChatMessage),
      tcs[i]? = some tc → (toolMsgs exec tcs clock)[i]? = some m →
      m.sender = Sender.toolResult ∧ m.toolCallId = some tc.id ∧
        m.toolName = some tc.name ∧
        (m.isError = true ↔ ∃ e, exec tc = .error e) := by
  intro tcs
  induction tcs with
  | nil => intro clock i tc m h; simp at h
  | cons tc0 rest ih =>
    intro clock i tc m htc hm
    cases i with
    | zero =>
      simp only [List.getElem?_cons_zero, Option.some.injEq] at htc
      subst htc
      simp only [toolMsgs, List.getElem?_cons_zero, Option.some.injEq] at hm
      subst hm
      cases hex : exec tc0 with
      | ok s =>
        refine ⟨rfl, rfl, rfl, ?_⟩
        constructor
        · intro h
          simp at h
        · intro he
          obtain ⟨e, he⟩ := he
          exact absurd he (by simp)
      | error e =>
        exact ⟨rfl, rfl, rfl, ⟨fun _ => ⟨e, rfl⟩, fun _ => rfl⟩⟩
    | succ j =>
      simp only [List.getElem?_cons_succ] at htc
      have hm2 : (toolMsgs exec rest (clock + 1))[j]? = some m := by
        simpa only [toolMsgs, List.getElem?_cons_succ] using hm
      exact ih (clock + 1) j tc m htc hm2

/-- Every tool result message carries the tool_result sender. -/
theorem toolMsgs_sender {exec : ToolCall → Except String String} :
    ∀ (tcs : List ToolCall) (clock : Nat),
      ∀ m ∈ toolMsgs exec tcs clock, m.sender = Sender.toolResult := by
  intro tcs
  induction tcs with
  | nil => intro clock m hm; simp [toolMsgs] at hm
  | cons tc rest ih =>
    intro clock m hm
    simp only [toolMsgs] at hm
    rcases List.mem_cons.mp hm with h | h
    · subst h
      cases exec tc <;> rfl
    · exact ih (clock + 1) m h

/-- Tool result ids are minted at consecutive clock values, so they are
fresh for the advanced clock. -/
theorem toolMsgs_fresh {exec : ToolCall → Except String String} :
    ∀ (tcs : List ToolCall) (clock : Nat),
      Fresh (toolMsgs exec tcs clock) (clock + tcs.length) := by
  intro tcs
  induction tcs with
  | nil => intro clock m hm; simp [toolMsgs] at hm
  | cons tc rest ih =>
    intro clock m hm
    simp only [toolMsgs] at hm
    rcases List.mem_cons.mp hm with h | h
    · subst h
      simp only [List.length_cons]
      cases exec tc with
      | ok s =>
        show clock < clock + (rest.length + 1)
        omega
      | error e =>
        show clock < clock + (rest.length + 1)
        omega
    · have := ih (clock + 1) m h
      simp only [List.length_cons]
      omega

/-- Status clearing distributes over append. -/
theorem clearExecuting_append {l1 l2 : List ChatMessage} :
    clearExecuting (l1 ++ l2) = clearExecuting l1 ++ clearExecuting l2 :=
  List.map_append _ l1 l2

/-- Status clearing fixes messages not flagged executing_tool. -/
theorem clearExecuting_id_on {l : List ChatMessage}
    (h : ∀ x ∈ l, ¬ x.status = some MsgStatus.executingTool) :
    clearExecuting l = l :=
  listMapIdOn (fun x hx => by rw [if_neg (h x hx)])

/-- Status clearing keeps ids. -/
theorem clearExecuting_ids {l : List ChatMessage} :
    ∀ x ∈ clearExecuting l, ∃ y ∈ l, x.id = y.id := by
  intro x hx
  obtain ⟨y, hy, hxy⟩ := List.mem_map.mp hx
  by_cases hs : y.status = some MsgStatus.executingTool
  · rw [if_pos hs] at hxy
    exact ⟨y, hy, by rw [← hxy]⟩
  · rw [if_neg hs] at hxy
    exact ⟨y, hy, hxy ▸ rfl⟩

/-- Status clearing keeps ids and senders. -/
theorem clearExecuting_mem {l : List ChatMessage} :
    ∀ x ∈ clearExecuting l, ∃ y ∈ l, x.id = y.id ∧ x.sender = y.sender := by
  intro x hx
  obtain ⟨y, hy, hxy⟩ := List.mem_map.mp hx
  by_cases hs : y.status = some MsgStatus.executingTool
  · rw [if_pos hs] at hxy
    exact ⟨y, hy, by rw [← hxy], by rw [← hxy]⟩
  · rw [if_neg hs] at hxy
    exact ⟨y, hy, hxy ▸ rfl, hxy ▸ rfl⟩

/-- Status clearing keeps the number of tool_result messages. -/
theorem clearExecuting_toolResultCount {l : List ChatMessage} :
    toolResultCount (clearExecuting l) = toolResultCount l := by
  induction l with
  | nil => rfl
  | cons m t ih =>
    simp only [clearExecuting, List.map_cons, toolResultCount, List.filter_cons]
    by_cases hs : m.status = some MsgStatus.executingTool
    · rw [if_pos hs]
      simp only [toolResultCount, clearExecuting] at ih
      by_cases hm : m.sender = Sender.toolResult
      · rw [if_pos (by simpa using hm), if_pos (by simpa using hm)]
        simp [ih]
      · rw [if_neg (by simpa using hm), if_neg (by simpa using hm)]
        exact ih
    · rw [if_neg hs]
      simp only [toolResultCount, clearExecuting] at ih
      by_cases hm : m.sender = Sender.toolResult
      · rw [if_pos (by simpa using hm), if_pos (by simpa using hm)]
        simp [ih]
      · rw [if_neg (by simpa using hm), if_neg (by simpa using hm)]
        exact ih

/-- The tool_result message count distributes over append. -/
theorem toolResultCount_append {l1 l2 : List ChatMessage} :
    toolResultCount (l1 ++ l2) = toolResultCount l1 + toolResultCount l2 := by
  simp [toolResultCount, List.filter_append]

/-- Tool result ids are minted no earlier than the entry clock. -/
theorem toolMsgs_lb {exec : ToolCall → Except String String} :
    ∀ (tcs : List ToolCall) (clock : Nat),
      ∀ m ∈ toolMsgs exec tcs clock, clock ≤ m.id.time := by
  intro tcs
  induction tcs with
  | nil => intro clock m hm; simp [toolMsgs] at hm
  | cons tc rest ih =>
    intro clock m hm
    simp only [toolMsgs] at hm
    rcases List.mem_cons.mp hm with h | h
    · subst h
      cases exec tc with
      | ok s => show clock ≤ clock; exact le_refl clock
      | error e => show clock ≤ clock; exact le_refl clock
    · have := ih (clock + 1) m h
      omega

/-- Each of the batch's result messages counts as a tool_result. -/
theorem toolResultCount_toolMsgs {exec : ToolCall → Except String String}
    {tcs : List ToolCall} {clock : Nat} :
    toolResultCount (toolMsgs exec tcs clock) = tcs.length := by
  have hall : ∀ m ∈ toolMsgs exec tcs clock, m.sender = Sender.toolResult :=
    toolMsgs_sender tcs clock
  calc toolResultCount (toolMsgs exec tcs clock)
      = (toolMsgs exec tcs clock).length := by
        unfold toolResultCount
        rw [List.filter_eq_self.mpr (fun m hm => by simp [hall m hm])]
    _ = tcs.length := toolMsgs_length tcs clock

/-- Agent-sender messages contribute nothing to the tool_result count. -/
theorem toolResultCount_agents {l : List ChatMessage}
    (h : ∀ m ∈ l, m.sender = Sender.agent) : toolResultCount l = 0 := by
  unfold toolResultCount
  rw [List.filter_eq_nil_iff.mpr (fun m hm => by simp [h m hm])]
  rfl

/-- A map rewriting only the draft id keeps the base intact and keeps the
draft segment made of agent messages under the draft id. -/
theorem mapDraft (g : ChatMessage → ChatMessage) (add1 : List ChatMessage)
    {base : List ChatMessage}
    (hbase : ∀ x ∈ base, ¬ x.id = aid)
    (hg : ∀ m ∈ add1, (g m).id = aid ∧ (g m).sender = Sender.agent)
    (hadd : ∀ m ∈ add1, m.id = aid ∧ m.sender = Sender.agent) :
    (base ++ add1).map (fun m => if m.id = aid then g m else m)
      = base ++ add1.map (fun m => if m.id = aid then g m else m) ∧
    ∀ m ∈ add1.map (fun m => if m.id = aid then g m else m),
      m.id = aid ∧ m.sender = Sender.agent := by
  constructor
  · rw [List.map_append, listMapIdOn (fun x hx => by rw [if_neg (hbase x hx)])]
  · intro m hm
    obtain ⟨y, hy, hym⟩ := List.mem_map.mp hm
    rw [if_pos (hadd y hy).1] at hym
    exact hym ▸ hg y hy

/-- addNodeMessage with a draft-id agent message keeps the base intact and
keeps the draft segment made of agent messages under the draft id. -/
theorem addDraft {base add1 : List ChatMessage} {n : ChatMessage}
    (hbase : ∀ x ∈ base, ¬ x.id = aid)
    (hadd : ∀ m ∈ add1, m.id = aid ∧ m.sender = Sender.agent)
    (hn : n.id = aid ∧ n.sender = Sender.agent) :
    ∃ add2, addNodeMessage (base ++ add1) n = base ++ add2 ∧
      ∀ m ∈ add2, m.id = aid ∧ m.sender = Sender.agent := by
  unfold addNodeMessage
  by_cases hany : (base ++ add1).any (fun y => y.id = n.id)
  · rw [if_pos hany, List.map_append,
      listMapIdOn (fun x hx => by
        rw [if_neg (fun hq => hbase x hx (hq.trans hn.1))])]
    refine ⟨_, rfl, ?_⟩
    intro m hm
    obtain ⟨y, hy, hym⟩ := List.mem_map.mp hm
    by_cases hyid : y.id = n.id
    · rw [if_pos hyid] at hym
      exact hym ▸ hn
    · rw [if_neg hyid] at hym
      exact hym ▸ hadd y hy
  · rw [if_neg hany, List.append_assoc]
    refine ⟨_, rfl, fun m hm => ?_⟩
    rcases List.mem_append.mp hm with h | h
    · exact hadd m h
    · rw [List.mem_singleton.mp h]
      exact hn

/-- One chunkStep over a base-plus-draft store keeps the base intact and
the draft segment made of agent messages under the stream id. -/
theorem chunkStep_skeleton (c : Chunk) {acc : StreamAcc}
    {base added : List ChatMessage} (hacc : acc.msgs = base ++ added)
    (hbase : ∀ x ∈ base, ¬ x.id = aid)
    (hadd : ∀ m ∈ added, m.id = aid ∧ m.sender = Sender.agent) :
    ∃ added1, (chunkStep aid acc c).msgs = base ++ added1 ∧
      ∀ m ∈ added1, m.id = aid ∧ m.sender = Sender.agent := by
  obtain ⟨ce, cr⟩ := c
  rcases ce with _ | e
  · rcases cr with _ | ⟨rt, rtc⟩
    · exact ⟨added, hacc, hadd⟩
    · have hbasestep : ∀ (t0 : String), t0 ≠ "" →
          ∃ add1, (if acc.msgs.any (fun m => m.id = aid) then
              acc.msgs.map (fun m => if m.id = aid then
                { m with text := acc.response ++ t0 } else m)
            else
              addNodeMessage acc.msgs
                { id := aid, sender := .agent, text := acc.response ++ t0 })
            = base ++ add1 ∧
            ∀ m ∈ add1, m.id = aid ∧ m.sender = Sender.agent := by
        intro t0 _
        by_cases hany : acc.msgs.any (fun m => m.id = aid)
        · rw [if_pos hany, hacc]
          obtain ⟨he1, he2⟩ := mapDraft
            (fun m => { m with text := acc.response ++ t0 }) added hbase
            (fun m hm => ⟨(hadd m hm).1, (hadd m hm).2⟩) hadd
          exact ⟨_, he1, he2⟩
        · rw [if_neg hany, hacc]
          exact addDraft hbase hadd ⟨rfl, rfl⟩
      rcases rt with _ | t0
      · rcases rtc with _ | tcs
        · exact ⟨added, hacc, hadd⟩
        · have hres := mapDraft
            (fun _ =>
              { id := aid
                sender := .agent
                text := acc.response
                toolCalls := some tcs
                status := some .executingTool }) added hbase
            (fun m _ => ⟨rfl, rfl⟩) hadd
          exact ⟨_, by
            simp only [chunkStep]
            rw [hacc, hres.1], hres.2⟩
      · by_cases h0 : t0 = ""
        · subst h0
          rcases rtc with _ | tcs
          · refine ⟨added, ?_, hadd⟩
            simp only [chunkStep]
            split
            next => exact hacc
            next h => exact absurd (by trivial) h
          · have hres := mapDraft
              (fun _ =>
                { id := aid
                  sender := .agent
                  text := acc.response
                  toolCalls := some tcs
                  status := some .executingTool }) added hbase
              (fun m _ => ⟨rfl, rfl⟩) hadd
            refine ⟨_, ?_, hres.2⟩
            simp only [chunkStep]
            split
            next =>
              rw [hacc, hres.1]
            next h => exact absurd (by trivial) h
        · obtain ⟨add1, hadd1, hinv1⟩ := hbasestep t0 h0
          rcases rtc with _ | tcs
          · refine ⟨add1, ?_, hinv1⟩
            simp only [chunkStep]
            rw [if_neg h0]
            exact hadd1
          · have hres := mapDraft
              (fun _ =>
                { id := aid
                  sender := .agent
                  text := acc.response ++ t0
                  toolCalls := some tcs
                  status := some .executingTool }) add1 hbase
              (fun m _ => ⟨rfl, rfl⟩) hinv1
            refine ⟨_, ?_, hres.2⟩
            simp only [chunkStep]
            rw [if_neg h0, hadd1, hres.1]
  · have hms : (chunkStep aid acc { error := some e, response := cr }).msgs
        = addNodeMessage acc.msgs
            { id := aid, sender := .agent, text := e, isError := true } := rfl
    rw [hms, hacc]
    exact addDraft hbase hadd ⟨rfl, rfl⟩

/-- Over a store that does not yet carry the stream id, the primary loop
only appends: the base is untouched and every appended message is an agent
message under the stream id. -/
theorem processChunks_skeleton {acc : StreamAcc} {l : List Chunk} :
    ∀ {base added : List ChatMessage}, acc.msgs = base ++ added →
      (∀ x ∈ base, ¬ x.id = aid) →
      (∀ m ∈ added, m.id = aid ∧ m.sender = Sender.agent) →
      ∃ added2, (processChunks aid acc l).msgs = base ++ added2 ∧
        ∀ m ∈ added2, m.id = aid ∧ m.sender = Sender.agent := by
  induction l generalizing acc with
  | nil => exact fun hacc _ hadd => ⟨_, hacc, hadd⟩
  | cons c t ih =>
    intro base added hacc hbase hadd
    obtain ⟨added1, hacc1, hadd1⟩ := chunkStep_skeleton c hacc hbase hadd
    simp only [processChunks]
    by_cases hb : (chunkStep aid acc c).errored = true
    · rw [if_pos hb]
      exact ⟨added1, hacc1, hadd1⟩
    · rw [if_neg hb]
      exact ih hacc1 hbase hadd1

/-- One followStep over a base-plus-draft store keeps the base intact and
the draft segment made of agent messages under the follow-up stream id. -/
theorem followStep_skeleton {fid : MsgId} (c : Chunk) {acc : StreamAcc}
    {base added : List ChatMessage} (hacc : acc.msgs = base ++ added)
    (hbase : ∀ x ∈ base, ¬ x.id = fid)
    (hadd : ∀ m ∈ added, m.id = fid ∧ m.sender = Sender.agent) :
    ∃ added1, (followStep fid acc c).msgs = base ++ added1 ∧
      ∀ m ∈ added1, m.id = fid ∧ m.sender = Sender.agent := by
  obtain ⟨ce, cr⟩ := c
  rcases ce with _ | e
  · rcases cr with _ | ⟨rt, rtc⟩
    · exact ⟨added, hacc, hadd⟩
    · rcases rt with _ | t0
      · exact ⟨added, hacc, hadd⟩
      · by_cases h0 : t0 = ""
        · subst h0
          refine ⟨added, ?_, hadd⟩
          simp only [followStep]
          split
          next => exact hacc
          next h => exact absurd (by trivial) h
        · simp only [followStep]
          rw [if_neg h0]
          by_cases hany : acc.msgs.any (fun m => m.id = fid)
          · rw [if_pos hany, hacc]
            obtain ⟨he1, he2⟩ := mapDraft
              (fun m => { m with text := acc.response ++ t0 }) added hbase
              (fun m hm => ⟨(hadd m hm).1, (hadd m hm).2⟩) hadd
            exact ⟨_, he1, he2⟩
          · rw [if_neg hany, hacc]
            exact addDraft hbase hadd ⟨rfl, rfl⟩
  · have hms : (followStep fid acc { error := some e, response := cr }).msgs
        = addNodeMessage acc.msgs
            { id := fid, sender := .agent, text := e, isError := true } := rfl
    rw [hms, hacc]
    exact addDraft hbase hadd ⟨rfl, rfl⟩

/-- Over a store that does not yet carry the follow-up stream id, the
follow-up loop only appends agent messages under that id. -/
theorem processFollowChunks_skeleton {fid : MsgId} {acc : StreamAcc} {l : List Chunk} :
    ∀ {base added : List ChatMessage}, acc.msgs = base ++ added →
      (∀ x ∈ base, ¬ x.id = fid) →
      (∀ m ∈ added, m.id = fid ∧ m.sender = Sender.agent) →
      ∃ added2, (processFollowChunks fid acc l).msgs = base ++ added2 ∧
        ∀ m ∈ added2, m.id = fid ∧ m.sender = Sender.agent := by
  induction l generalizing acc with
  | nil => exact fun hacc _ hadd => ⟨_, hacc, hadd⟩
  | cons c t ih =>
    intro base added hacc hbase hadd
    obtain ⟨added1, hacc1, hadd1⟩ := followStep_skeleton c hacc hbase hadd
    simp only [processFollowChunks]
    by_cases hb : (followStep fid acc c).errored = true
    · rw [if_pos hb]
      exact ⟨added1, hacc1, hadd1⟩
    · rw [if_neg hb]
      exact ih hacc1 hbase hadd1

/-- The follow-up preparation keeps the store, flag and trace, and advances
the clock at most one tick. -/
theorem followUpPrep_state (trf : String → String) (st : TurnState) :
    (followUpPrep trf st).2.messages = st.messages ∧
    (followUpPrep trf st).2.executing = st.executing ∧
    (followUpPrep trf st).2.trace = st.trace ∧
    st.clock ≤ (followUpPrep trf st).2.clock := by
  unfold followUpPrep
  by_cases htr : 0 < (st.messages.filter (fun m => m.sender = Sender.toolResult)).length
  · rw [if_pos htr]
    exact ⟨rfl, rfl, rfl, by show st.clock ≤ st.clock + 1; omega⟩
  · rw [if_neg htr]
    exact ⟨rfl, rfl, rfl, le_refl _⟩

/-- Under a fresh store and a non-throwing follow-up iterator, the follow-up
block succeeds, appends only agent messages minted during it, records
exactly one further streaming dispatch, and leaves the executing flag and
all earlier messages untouched. -/
theorem followUpPhase_spec (trf : String → String) (agent : Agent) (cfg : LLMConfig)
    (oc : Oracles) (st : TurnState)
    (hfthrow : oc.followThrow = none)
    (hfresh : Fresh st.messages st.clock) :
    ∃ st2 addedF hist,
      followUpPhase trf agent cfg oc st = .ok st2 ∧
      st2.messages = st.messages ++ addedF ∧
      (∀ m ∈ addedF, m.sender = Sender.agent ∧ st.clock ≤ m.id.time) ∧
      Fresh st2.messages st2.clock ∧
      st.clock ≤ st2.clock ∧
      st2.executing = st.executing ∧
      st2.trace = st.trace ++ [DispatchEvent.stream agent.llmProvider cfg.apiKey
        agent.model agent.systemPrompt hist agent.tools agent.outputConfig] := by
  obtain ⟨hpm, hpe, hpt, hpc⟩ := followUpPrep_state trf st
  have h2m : (followSt2 trf agent cfg st).messages = st.messages := hpm
  have h2e : (followSt2 trf agent cfg st).executing = st.executing := hpe
  have h2c : st.clock ≤ (followSt2 trf agent cfg st).clock := hpc
  have h2t : (followSt2 trf agent cfg st).trace = st.trace ++
      [DispatchEvent.stream agent.llmProvider cfg.apiKey agent.model
        agent.systemPrompt (followUpPrep trf st).1 agent.tools agent.outputConfig] := by
    show (followUpPrep trf st).2.trace ++ _ = _
    rw [hpt]
  have hres : followUpPhase trf agent cfg oc st
      = .ok (followSt4 trf agent cfg oc st) := by
    simp only [followUpPhase]
    rw [hfthrow, ite_self]
  obtain ⟨added2, hmsgs, hinv⟩ := @processFollowChunks_skeleton
    { time := (followSt2 trf agent cfg st).clock, tag := IdTag.followupTag }
    { msgs := (followSt2 trf agent cfg st).messages
      response := ""
      calls := []
      errored := false }
    oc.followChunks
    ((followSt2 trf agent cfg st).messages) []
    (List.append_nil _).symm
    (by
      intro x hx he
      rw [h2m] at hx
      have hlt := hfresh x hx
      rw [he] at hlt
      have hlt2 : (followSt2 trf agent cfg st).clock < st.clock := hlt
      omega)
    (fun m hm => absurd hm (List.not_mem_nil m))
  have hmsgs4 : (followSt4 trf agent cfg oc st).messages = st.messages ++ added2 := by
    show (followAcc trf agent cfg oc st).msgs = _
    rw [show followAcc trf agent cfg oc st = processFollowChunks
      { time := (followSt2 trf agent cfg st).clock, tag := IdTag.followupTag }
      { msgs := (followSt2 trf agent cfg st).messages, response := "",
        calls := [], errored := false } oc.followChunks from rfl]
    rw [hmsgs, h2m]
  refine ⟨followSt4 trf agent cfg oc st, added2, (followUpPrep trf st).1,
    hres, hmsgs4, ?_, ?_, ?_, ?_, ?_⟩
  · intro m hm
    obtain ⟨hid, hsend⟩ := hinv m hm
    refine ⟨hsend, ?_⟩
    rw [hid]
    simpa using h2c
  · show Fresh (followSt4 trf agent cfg oc st).messages
      ((followSt2 trf agent cfg st).clock + 1)
    rw [hmsgs4]
    intro m hm
    rcases List.mem_append.mp hm with h | h
    · have := hfresh m h
      omega
    · have hred : ({ time := (followSt2 trf agent cfg st).clock, tag := IdTag.followupTag } : MsgId).time = (followSt2 trf agent cfg st).clock := rfl
      rw [(hinv m h).1, hred]
      omega
  · show st.clock ≤ (followSt2 trf agent cfg st).clock + 1
    omega
  · exact h2e
  · exact h2t

/-- Master description of the dispatch-and-consume stage under a fresh
store and non-throwing iterators: it succeeds; it preserves every prefix of
status-clean messages; everything after such a prefix is either an original
message (same id and sender, possibly with its status cleared) or a message
minted during the stage; the trace gains the primary dispatch and exactly
one further streaming dispatch when recorded tool calls meet the chat
capability; and with tool calls but no chat capability the tool results are
left in the store. -/
theorem streamPhase_spec (trf : String → String) (agent : Agent) (cfg : LLMConfig)
    (oc : Oracles) (snapshot : List ChatMessage) (userMessage : ChatMessage)
    (st : TurnState)
    (hthrow : oc.primaryThrow = none) (hfthrow : oc.followThrow = none)
    (hfresh : Fresh st.messages st.clock)
    (pre rest : List ChatMessage) (hsplit : st.messages = pre ++ rest)
    (hstatus : ∀ x ∈ pre, ¬ x.status = some MsgStatus.executingTool) :
    ∃ st2 rest2 extra,
      streamPhase trf agent cfg oc snapshot userMessage st = .ok st2 ∧
      st2.messages = pre ++ rest2 ∧
      (∀ m ∈ rest2, (∃ y ∈ rest, m.id = y.id ∧ m.sender = y.sender) ∨
        st.clock ≤ m.id.time) ∧
      Fresh st2.messages st2.clock ∧
      st.clock ≤ st2.clock ∧
      st2.executing = st.executing ∧
      st2.trace = st.trace ++ primaryEv agent cfg snapshot userMessage :: extra ∧
      completeCount extra = 0 ∧
      streamCount extra = (if 0 < (primaryAcc oc st).calls.length ∧
        (agent.capabilities.getD []).any (fun c => c = LLMCapability.chat) = true
        then 1 else 0) ∧
      (oc.primaryChunks = [] → st2.messages = st.messages ∧ extra = []) ∧
      (0 < (primaryAcc oc st).calls.length →
        (agent.capabilities.getD []).any (fun c => c = LLMCapability.chat) = false →
        toolResultCount st2.messages
          = toolResultCount st.messages + (primaryAcc oc st).calls.length) := by
  have hbase : ∀ x ∈ st.messages,
      ¬ x.id = ({ time := st.clock, tag := IdTag.agentTag } : MsgId) := by
    intro x hx he
    have hlt := hfresh x hx
    rw [he] at hlt
    have hlt2 : st.clock < st.clock := hlt
    omega
  obtain ⟨added, hAm0, hAinv⟩ := @processChunks_skeleton
    { time := st.clock, tag := IdTag.agentTag }
    { msgs := st.messages, response := "", calls := [], errored := false }
    oc.primaryChunks st.messages []
    (List.append_nil _).symm hbase (fun m hm => absurd hm (List.not_mem_nil m))
  have hAm : (primaryAcc oc st).msgs = st.messages ++ added := hAm0
  have hsc : (if (primaryAcc oc st).errored = true then none else oc.primaryThrow)
      = (none : Option String) := by
    rw [hthrow]
    exact ite_self none
  have haddedTime : ∀ m ∈ added, m.id.time = st.clock := by
    intro m hm
    rw [(hAinv m hm).1]
  have hfreshA : Fresh (primaryAcc oc st).msgs (st.clock + 1) := by
    rw [hAm]
    intro m hm
    rcases List.mem_append.mp hm with h | h
    · have := hfresh m h
      omega
    · rw [haddedTime m h]
      omega
  have hmemA : ∀ m ∈ (primaryAcc oc st).msgs,
      m ∈ st.messages ∨ st.clock ≤ m.id.time := by
    rw [hAm]
    intro m hm
    rcases List.mem_append.mp hm with h | h
    · exact Or.inl h
    · exact Or.inr (le_of_eq (haddedTime m h).symm)
  simp only [streamPhase]
  rw [hsc]
  by_cases hcalls : 0 < (primaryAcc oc st).calls.length
  · rw [if_pos hcalls]
    have hfresh3 : Fresh (primarySt3 agent cfg oc snapshot userMessage st).messages
        (primarySt3 agent cfg oc snapshot userMessage st).clock := hfreshA
    have hrun : runTools oc.execTool (primaryAcc oc st).calls
        (primarySt3 agent cfg oc snapshot userMessage st).messages
        (primarySt3 agent cfg oc snapshot userMessage st).clock
        = ((primaryAcc oc st).msgs ++ toolMsgs oc.execTool (primaryAcc oc st).calls
            (st.clock + 1),
          (st.clock + 1) + (primaryAcc oc st).calls.length) :=
      runTools_spec hfresh3
    have hm5 : (toolsSt5 agent cfg oc snapshot userMessage st).messages
        = clearExecuting ((primaryAcc oc st).msgs ++
            toolMsgs oc.execTool (primaryAcc oc st).calls (st.clock + 1)) := by
      show clearExecuting (runTools oc.execTool (primaryAcc oc st).calls
        (primarySt3 agent cfg oc snapshot userMessage st).messages
        (primarySt3 agent cfg oc snapshot userMessage st).clock).1 = _
      rw [hrun]
    have hc5 : (toolsSt5 agent cfg oc snapshot userMessage st).clock
        = (st.clock + 1) + (primaryAcc oc st).calls.length := by
      show (runTools oc.execTool (primaryAcc oc st).calls
        (primarySt3 agent cfg oc snapshot userMessage st).messages
        (primarySt3 agent cfg oc snapshot userMessage st).clock).2 = _
      rw [hrun]
    have hsplit5 : (toolsSt5 agent cfg oc snapshot userMessage st).messages
        = pre ++ (clearExecuting rest ++ (clearExecuting added ++
            clearExecuting (toolMsgs oc.execTool (primaryAcc oc st).calls (st.clock + 1)))) := by
      rw [hm5, hAm, hsplit]
      simp [clearExecuting_append, clearExecuting_id_on hstatus, List.append_assoc]
    have hmem5 : ∀ m ∈ clearExecuting rest ++ (clearExecuting added ++
        clearExecuting (toolMsgs oc.execTool (primaryAcc oc st).calls (st.clock + 1))),
        (∃ y ∈ rest, m.id = y.id ∧ m.sender = y.sender) ∨ st.clock ≤ m.id.time := by
      intro m hm
      rcases List.mem_append.mp hm with h | h
      · obtain ⟨y, hy, hid, hsend⟩ := clearExecuting_mem m h
        exact Or.inl ⟨y, hy, hid, hsend⟩
      · rcases List.mem_append.mp h with h2 | h2
        · obtain ⟨y, hy, hid, _⟩ := clearExecuting_mem m h2
          refine Or.inr ?_
          rw [hid, haddedTime y hy]
        · obtain ⟨y, hy, hid, _⟩ := clearExecuting_mem m h2
          refine Or.inr ?_
          rw [hid]
          have := toolMsgs_lb (primaryAcc oc st).calls (st.clock + 1) y hy
          omega
    have hfresh5 : Fresh (toolsSt5 agent cfg oc snapshot userMessage st).messages
        (toolsSt5 agent cfg oc snapshot userMessage st).clock := by
      rw [hm5, hc5]
      intro m hm
      obtain ⟨y, hy, hid, _⟩ := clearExecuting_mem m hm
      rw [hid]
      rcases List.mem_append.mp hy with h | h
      · have := hfreshA y h
        omega
      · have := toolMsgs_fresh (primaryAcc oc st).calls (st.clock + 1) y h
        omega
    have hcount5 : toolResultCount (toolsSt5 agent cfg oc snapshot userMessage st).messages
        = toolResultCount st.messages + (primaryAcc oc st).calls.length := by
      rw [hm5, clearExecuting_toolResultCount, toolResultCount_append, hAm,
        toolResultCount_append, toolResultCount_agents (fun m hm => (hAinv m hm).2),
        toolResultCount_toolMsgs]
      omega
    by_cases hchat : (agent.capabilities.getD []).any (fun c => c = LLMCapability.chat) = true
    · rw [if_pos hchat]
      obtain ⟨st6, addedF, hist, hok6, hm6, hinv6, hfresh6, hc6, he6, ht6⟩ :=
        followUpPhase_spec trf agent cfg oc
          (toolsSt5 agent cfg oc snapshot userMessage st) hfthrow hfresh5
      refine ⟨st6, (clearExecuting rest ++ (clearExecuting added ++
        clearExecuting (toolMsgs oc.execTool (primaryAcc oc st).calls (st.clock + 1)))) ++ addedF,
        [DispatchEvent.stream agent.llmProvider cfg.apiKey agent.model
          agent.systemPrompt hist agent.tools agent.outputConfig],
        hok6, ?_, ?_, hfresh6, ?_, ?_, ?_, ?_, ?_, ?_, ?_⟩
      · rw [hm6, hsplit5, List.append_assoc]
      · intro m hm
        rcases List.mem_append.mp hm with h | h
        · exact hmem5 m h
        · refine Or.inr ?_
          have h2 := (hinv6 m h).2
          have h3 : st.clock ≤ (toolsSt5 agent cfg oc snapshot userMessage st).clock := by
            rw [hc5]
            omega
          omega
      · have h3 : st.clock ≤ (toolsSt5 agent cfg oc snapshot userMessage st).clock := by
          rw [hc5]
          omega
        omega
      · rw [he6]
        rfl
      · rw [ht6]
        show (st.trace ++ [primaryEv agent cfg snapshot userMessage]) ++ _ = _
        rw [List.append_assoc]
        rfl
      · rfl
      · rw [if_pos ⟨hcalls, hchat⟩]
        rfl
      · intro hchunks
        exfalso
        have : (primaryAcc oc st).calls.length = 0 := by
          simp [primaryAcc, hchunks, processChunks]
        omega
      · intro _ hchatF
        rw [hchat] at hchatF
        exact absurd hchatF (by decide)
    · rw [if_neg hchat]
      refine ⟨toolsSt5 agent cfg oc snapshot userMessage st,
        clearExecuting rest ++ (clearExecuting added ++
          clearExecuting (toolMsgs oc.execTool (primaryAcc oc st).calls (st.clock + 1))),
        [], rfl, hsplit5, hmem5, hfresh5, ?_, rfl, rfl, rfl, ?_, ?_, ?_⟩
      · rw [hc5]
        omega
      · rw [if_neg]
        · rfl
        · intro hand
          exact absurd hand.2 (by rw [Bool.not_eq_true] at hchat; rw [hchat]; decide)
      · intro hchunks
        exfalso
        have : (primaryAcc oc st).calls.length = 0 := by
          simp [primaryAcc, hchunks, processChunks]
        omega
      · intro _ _
        exact hcount5
  · rw [if_neg hcalls]
    refine ⟨primarySt3 agent cfg oc snapshot userMessage st, rest ++ added, [],
      rfl, ?_, ?_, hfreshA, ?_, rfl, rfl, rfl, ?_, ?_, ?_⟩
    · show (primaryAcc oc st).msgs = _
      rw [hAm, hsplit, List.append_assoc]
    · intro m hm
      rcases List.mem_append.mp hm with h | h
      · exact Or.inl ⟨m, h, rfl, rfl⟩
      · exact Or.inr (le_of_eq (haddedTime m h).symm)
    · show st.clock ≤ st.clock + 1
      omega
    · rw [if_neg]
      · rfl
      · intro hand
        exact absurd hand.1 hcalls
    · intro hchunks
      constructor
      · show (primaryAcc oc st).msgs = st.messages
        simp [primaryAcc, hchunks, processChunks]
      · rfl
    · intro hc _
      exact absurd hc hcalls

/-- The history phase with a due compaction and a resolvable summarization
provider: one complete dispatch with the policy's provider, model and
prompt over one synthetic user message rendering the transcript, and the
store replaced by the summary and the triggering user message. -/
theorem historyPhaseE_compact (trf : String → String) (agent : Agent)
    (llmConfigs : List LLMConfig) (summaryText : String)
    (snapshot : List ChatMessage) (userMessage : ChatMessage) (st : TurnState)
    (h : HistoryConfig) (summCfg : LLMConfig)
    (hhc : agent.historyConfig = some h) (hen : h.enabled = true)
    (hne : 0 < snapshot.length)
    (hdue : countTokens (snapshot ++ [userMessage]) ≥ h.limits.token ∨
      countWords (snapshot ++ [userMessage]) ≥ h.limits.word ∨
      countSentences (snapshot ++ [userMessage]) ≥ h.limits.sentence ∨
      countMessages (snapshot ++ [userMessage]) ≥ h.limits.message)
    (hfind : llmConfigs.find? (fun c => c.provider = h.llmProvider) = some summCfg) :
    historyPhaseE trf agent llmConfigs (.ok summaryText) snapshot userMessage st
      = .ok
        { apiHistory :=
            [{ id := { time := st.clock + 1, tag := IdTag.summaryTag }
               sender := Sender.agent
               text := "(Résumé de l\x27historique): " ++ summaryText }, userMessage]
          st :=
            { messages :=
                [{ id := { time := st.clock + 1, tag := IdTag.summaryTag }
                   sender := Sender.agent
                   text := "(Résumé de l\x27historique): " ++ summaryText }, userMessage]
              executing := st.executing
              clock := st.clock + 2
              trace := st.trace ++
                [DispatchEvent.complete summCfg.provider summCfg.apiKey h.model
                  h.systemPrompt
                  [{ id := { time := st.clock, tag := IdTag.summaryPromptTag }
                     sender := Sender.user
                     text := trf "conversation_to_summarize" ++ ":\n\n" ++
                       String.intercalate "\n" ((snapshot ++ [userMessage]).map
                         (fun m => senderStr m.sender ++ ": " ++ m.text)) }]] } } := by
  simp only [historyPhaseE, hhc]
  rw [if_pos ⟨hen, hne⟩, if_pos hdue, hfind]
  rfl

/-- The history phase with a due compaction but no summarization provider
among the configured ones: the localized not-configured error is thrown
with the state unchanged. -/
theorem historyPhaseE_noSummarizer (trf : String → String) (agent : Agent)
    (llmConfigs : List LLMConfig) (summOracle : Except String String)
    (snapshot : List ChatMessage) (userMessage : ChatMessage) (st : TurnState)
    (h : HistoryConfig)
    (hhc : agent.historyConfig = some h) (hen : h.enabled = true)
    (hne : 0 < snapshot.length)
    (hdue : countTokens (snapshot ++ [userMessage]) ≥ h.limits.token ∨
      countWords (snapshot ++ [userMessage]) ≥ h.limits.word ∨
      countSentences (snapshot ++ [userMessage]) ≥ h.limits.sentence ∨
      countMessages (snapshot ++ [userMessage]) ≥ h.limits.message)
    (hfind : llmConfigs.find? (fun c => c.provider = h.llmProvider) = none) :
    historyPhaseE trf agent llmConfigs summOracle snapshot userMessage st
      = .error ("Summarization LLM " ++ providerName h.llmProvider ++
          " not configured.", st) := by
  simp only [historyPhaseE, hhc]
  rw [if_pos ⟨hen, hne⟩, if_pos hdue, hfind]

/-- The history phase when compaction is not due: the state passes through
unchanged (the computed conversationHistoryForAPI varies by branch). -/
theorem historyPhaseE_notDue (trf : String → String) (agent : Agent)
    (llmConfigs : List LLMConfig) (summOracle : Except String String)
    (snapshot : List ChatMessage) (userMessage : ChatMessage) (st : TurnState)
    (h : HistoryConfig)
    (hhc : agent.historyConfig = some h) (hen : h.enabled = true)
    (hne : 0 < snapshot.length)
    (hdue : ¬ (countTokens (snapshot ++ [userMessage]) ≥ h.limits.token ∨
      countWords (snapshot ++ [userMessage]) ≥ h.limits.word ∨
      countSentences (snapshot ++ [userMessage]) ≥ h.limits.sentence ∨
      countMessages (snapshot ++ [userMessage]) ≥ h.limits.message)) :
    historyPhaseE trf agent llmConfigs summOracle snapshot userMessage st
      = .ok { apiHistory := snapshot ++ [userMessage], st := st } := by
  simp only [historyPhaseE, hhc]
  rw [if_pos ⟨hen, hne⟩, if_neg hdue]

/-- The history phase with no history policy at all: the state passes
through and the computed per-call history is the new message alone. -/
theorem historyPhaseE_noPolicy (trf : String → String) (agent : Agent)
    (llmConfigs : List LLMConfig) (summOracle : Except String String)
    (snapshot : List ChatMessage) (userMessage : ChatMessage) (st : TurnState)
    (hhc : agent.historyConfig = none) :
    historyPhaseE trf agent llmConfigs summOracle snapshot userMessage st
      = .ok { apiHistory := [userMessage], st := st } := by
  simp only [historyPhaseE, hhc]

/-- The history phase with a disabled policy: the state passes through and
the computed per-call history is the new message alone. -/
theorem historyPhaseE_disabled (trf : String → String) (agent : Agent)
    (llmConfigs : List LLMConfig) (summOracle : Except String String)
    (snapshot : List ChatMessage) (userMessage : ChatMessage) (st : TurnState)
    (h : HistoryConfig)
    (hhc : agent.historyConfig = some h) (hen : h.enabled = false) :
    historyPhaseE trf agent llmConfigs summOracle snapshot userMessage st
      = .ok { apiHistory := [userMessage], st := st } := by
  simp only [historyPhaseE, hhc]
  rw [if_neg (fun hand => by rw [hen] at hand; exact absurd hand.1 (by decide))]
  rw [if_neg (by rw [hen]; decide)]

/-- handleSendMessage reduces to the try block result when the guards pass
and the provider config is enabled with a key: successful body. -/
theorem handleSendMessage_ok (env : Env) (oc : Oracles) (st0 : TurnState)
    (agent : Agent) (cfg : LLMConfig) (stR : TurnState)
    (htrim : ¬ (jsTrim env.userInput) = "") (hagent : env.agent = some agent)
    (hcfg : env.llmConfigs.find? (fun c => c.provider = agent.llmProvider) = some cfg)
    (hen : cfg.enabled = true) (hkey : ¬ cfg.apiKey = "")
    (hbody : turnBody env.tr agent cfg env.llmConfigs oc st0.messages
      (mkUserMessage agent env.attachedFile (jsTrim env.userInput) st0.clock)
      (entrySt env agent st0) = .ok stR) :
    handleSendMessage env oc st0 = { stR with executing := false } := by
  unfold handleSendMessage
  rw [if_neg (fun hand => htrim hand.1)]
  simp only [hagent, hcfg]
  rw [if_neg (fun hor => hor.elim
    (fun hf => absurd (hen.symm.trans hf) (by decide)) hkey)]
  simp only [hbody]

/-- handleSendMessage reduces to the catch when the guards pass, the
provider config is enabled with a key, and the try block throws: the thrown
text is appended as an error-flagged agent message and the flag cleared. -/
theorem handleSendMessage_catch (env : Env) (oc : Oracles) (st0 : TurnState)
    (agent : Agent) (cfg : LLMConfig) (e : String) (stE : TurnState)
    (htrim : ¬ (jsTrim env.userInput) = "") (hagent : env.agent = some agent)
    (hcfg : env.llmConfigs.find? (fun c => c.provider = agent.llmProvider) = some cfg)
    (hen : cfg.enabled = true) (hkey : ¬ cfg.apiKey = "")
    (hbody : turnBody env.tr agent cfg env.llmConfigs oc st0.messages
      (mkUserMessage agent env.attachedFile (jsTrim env.userInput) st0.clock)
      (entrySt env agent st0) = .error (e, stE)) :
    handleSendMessage env oc st0 =
      { messages := addNodeMessage stE.messages
          { id := { time := stE.clock, tag := IdTag.plain }, sender := .agent,
            text := "Erreur: " ++ e, isError := true }
        executing := false
        clock := stE.clock + 1
        trace := stE.trace } := by
  unfold handleSendMessage
  rw [if_neg (fun hand => htrim hand.1)]
  simp only [hagent, hcfg]
  rw [if_neg (fun hor => hor.elim
    (fun hf => absurd (hen.symm.trans hf) (by decide)) hkey)]
  simp only [hbody]
  rfl

/-- turnBody after a successful history phase is the dispatch-and-consume
stage run from the history phase's state. -/
theorem turnBody_ok (trf : String → String) (agent : Agent) (cfg : LLMConfig)
    (llmConfigs : List LLMConfig) (oc : Oracles) (snapshot : List ChatMessage)
    (userMessage : ChatMessage) (st : TurnState) (hp : HistoryPhaseResult)
    (hhist : historyPhaseE trf agent llmConfigs oc.summarize snapshot userMessage st
      = .ok hp) :
    turnBody trf agent cfg llmConfigs oc snapshot userMessage st
      = streamPhase trf agent cfg oc snapshot userMessage hp.st := by
  unfold turnBody
  rw [hhist]

/-- turnBody propagates a history phase throw. -/
theorem turnBody_error (trf : String → String) (agent : Agent) (cfg : LLMConfig)
    (llmConfigs : List LLMConfig) (oc : Oracles) (snapshot : List ChatMessage)
    (userMessage : ChatMessage) (st : TurnState) (es : String × TurnState)
    (hhist : historyPhaseE trf agent llmConfigs oc.summarize snapshot userMessage st
      = .error es) :
    turnBody trf agent cfg llmConfigs oc snapshot userMessage st = .error es := by
  unfold turnBody
  rw [hhist]

/-- The user message is minted with the plain id at the entry clock, sender
user, and no status, whatever the attachment. -/
theorem mkUserMessage_fields (agent : Agent) (att : Option FileAtt)
    (trimmedInput : String) (n : Nat) :
    (mkUserMessage agent att trimmedInput n).id = { time := n, tag := IdTag.plain } ∧
    (mkUserMessage agent att trimmedInput n).sender = Sender.user ∧
    (mkUserMessage agent att trimmedInput n).status = none ∧
    (mkUserMessage agent att trimmedInput n).text = trimmedInput := by
  rcases att with _ | f
  · exact ⟨rfl, rfl, rfl, rfl⟩
  · by_cases hm : agent.llmProvider = LLMProvider.mistral
    · rcases hf : f.asText with _ | t <;> simp [mkUserMessage, hm, hf]
    · simp [mkUserMessage, hm]

/-- Stream-dispatch counting distributes over append. -/
theorem streamCount_append {l1 l2 : List DispatchEvent} :
    streamCount (l1 ++ l2) = streamCount l1 + streamCount l2 := by
  simp [streamCount, List.filter_append]

/-- Complete-dispatch counting distributes over append. -/
theorem completeCount_append {l1 l2 : List DispatchEvent} :
    completeCount (l1 ++ l2) = completeCount l1 + completeCount l2 := by
  simp [completeCount, List.filter_append]

/-- A streaming event at the head adds one to the stream count. -/
theorem streamCount_cons_stream {p : LLMProvider} {k m sp : String}
    {hist : List ChatMessage} {ts : List Tool} {ocfg : Option OutputConfig}
    {l : List DispatchEvent} :
    streamCount (DispatchEvent.stream p k m sp hist ts ocfg :: l)
      = 1 + streamCount l := by
  simp [streamCount, List.filter_cons, DispatchEvent.isStream, Nat.add_comm]

/-- A complete event at the head leaves the stream count unchanged. -/
theorem streamCount_cons_complete {p : LLMProvider} {k m sp : String}
    {hist : List ChatMessage} {l : List DispatchEvent} :
    streamCount (DispatchEvent.complete p k m sp hist :: l) = streamCount l := by
  simp [streamCount, List.filter_cons, DispatchEvent.isStream]

/-- A complete event at the head adds one to the complete count. -/
theorem completeCount_cons_complete {p : LLMProvider} {k m sp : String}
    {hist : List ChatMessage} {l : List DispatchEvent} :
    completeCount (DispatchEvent.complete p k m sp hist :: l)
      = 1 + completeCount l := by
  simp [completeCount, List.filter_cons, DispatchEvent.isStream, Nat.add_comm]

/-- A streaming event at the head leaves the complete count unchanged. -/
theorem completeCount_cons_stream {p : LLMProvider} {k m sp : String}
    {hist : List ChatMessage} {ts : List Tool} {ocfg : Option OutputConfig}
    {l : List DispatchEvent} :
    completeCount (DispatchEvent.stream p k m sp hist ts ocfg :: l)
      = completeCount l := by
  simp [completeCount, List.filter_cons, DispatchEvent.isStream]

/-- addNodeMessage of a draft-id message over a base plus materialized
draft collapses to the base plus that message alone. -/
theorem addNodeMessage_respTail {aid : MsgId} {msgs0 : List ChatMessage}
    (hm0 : ∀ x ∈ msgs0, ¬ x.id = aid) (r : String) (n : ChatMessage)
    (hn : n.id = aid) :
    addNodeMessage (msgs0 ++ respTail aid r) n = msgs0 ++ [n] := by
  by_cases hr : r = ""
  · subst hr
    rw [show respTail aid "" = [] from by rw [respTail, if_pos rfl], List.append_nil]
    exact addNodeMessage_not_mem (fun x hx he => hm0 x hx (he.trans hn))
  · rw [show respTail aid r = [{ id := aid, sender := .agent, text := r }] from by
      rw [respTail, if_neg hr]]
    unfold addNodeMessage
    rw [if_pos (List.any_eq_true.mpr ⟨{ id := aid, sender := .agent, text := r },
      List.mem_append.mpr (Or.inr (by simp)), by simp [hn]⟩)]
    rw [List.map_append, listMapIdOn (fun x hx => by
      rw [if_neg (fun he => hm0 x hx (he.trans hn))])]
    simp [hn]

/-- Any successful history phase keeps freshness, the flag, monotone clocks,
and adds no streaming dispatch and at most the summarization complete
dispatch before the trace's tail. -/
theorem historyPhaseE_ok_spec {trf : String → String} {agent : Agent}
    {llmConfigs : List LLMConfig} {summOracle : Except String String}
    {snapshot : List ChatMessage} {userMessage : ChatMessage} {st : TurnState}
    {hp : HistoryPhaseResult}
    (hfresh : Fresh st.messages st.clock)
    (hu : userMessage.id.time < st.clock)
    (hhist : historyPhaseE trf agent llmConfigs summOracle snapshot userMessage st
      = .ok hp) :
    Fresh hp.st.messages hp.st.clock ∧ st.clock ≤ hp.st.clock ∧
    hp.st.executing = st.executing ∧
    streamCount hp.st.trace = streamCount st.trace := by
  rcases hhc : agent.historyConfig with _ | h
  · simp only [historyPhaseE, hhc] at hhist
    simp only [Except.ok.injEq] at hhist
    subst hhist
    exact ⟨hfresh, le_refl _, rfl, rfl⟩
  · simp only [historyPhaseE, hhc] at hhist
    by_cases hgate : h.enabled = true ∧ 0 < snapshot.length
    · rw [if_pos hgate] at hhist
      by_cases hdue : countTokens (snapshot ++ [userMessage]) ≥ h.limits.token ∨
          countWords (snapshot ++ [userMessage]) ≥ h.limits.word ∨
          countSentences (snapshot ++ [userMessage]) ≥ h.limits.sentence ∨
          countMessages (snapshot ++ [userMessage]) ≥ h.limits.message
      · rw [if_pos hdue] at hhist
        rcases hfind : llmConfigs.find? (fun c => c.provider = h.llmProvider) with _ | summCfg
        · rw [hfind] at hhist
          exact absurd hhist (by simp)
        · rw [hfind] at hhist
          rcases hsum : summOracle with e | summaryText
          · rw [hsum] at hhist
            exact absurd hhist (by simp)
          · rw [hsum] at hhist
            simp only [Except.ok.injEq] at hhist
            subst hhist
            refine ⟨?_, ?_, rfl, ?_⟩
            · intro m hm
              rcases List.mem_cons.mp hm with he | hm2
              · subst he
                show st.clock + 1 < st.clock + 2
                omega
              · rw [List.mem_singleton.mp hm2]
                show userMessage.id.time < st.clock + 2
                omega
            · show st.clock ≤ st.clock + 2
              omega
            · show streamCount (st.trace ++ [DispatchEvent.complete _ _ _ _ _])
                = streamCount st.trace
              rw [streamCount_append]
              simp [streamCount, DispatchEvent.isStream]
      · rw [if_neg hdue] at hhist
        simp only [Except.ok.injEq] at hhist
        subst hhist
        exact ⟨hfresh, le_refl _, rfl, rfl⟩
    · rw [if_neg hgate] at hhist
      simp only [Except.ok.injEq] at hhist
      subst hhist
      exact ⟨hfresh, le_refl _, rfl, rfl⟩

end Lemmas

/-- Freshness from a decidable scan of the stored times. -/
theorem freshOfAll {msgs : List ChatMessage} {c : Nat}
    (h : msgs.all (fun m => decide (m.id.time < c)) = true) : Fresh msgs c :=
  fun m hm => of_decide_eq_true (List.all_eq_true.mp h m hm)

/-- Text-only chunk lists from a decidable scan of the chunk fields. -/
theorem textOnlyChunks {l : List Chunk}
    (h : ∀ c ∈ l, c.error = none ∧ (c.response.map (fun r => r.toolCalls)).getD none = none) :
    ∀ c ∈ l, c.error = none ∧ ∀ r, c.response = some r → r.toolCalls = none := by
  intro c hc
  refine ⟨(h c hc).1, ?_⟩
  intro r hr
  have h2 := (h c hc).2
  rw [hr] at h2
  exact h2

/-- The in-progress message materialized for an empty response is absent. -/
theorem respTail_empty (aid : MsgId) : respTail aid "" = [] := by
  rw [respTail, if_pos rfl]

/-- Concatenating the text increments distributes over chunk-list append. -/
theorem joinedTexts_append {l1 l2 : List Chunk} :
    joinedTexts (l1 ++ l2) = joinedTexts l1 ++ joinedTexts l2 := by
  induction l1 with
  | nil =>
    simp only [List.nil_append, joinedTexts]
    rw [String.empty_append]
  | cons c t ih =>
    show chunkTextOf c ++ joinedTexts (t ++ l2)
      = (chunkTextOf c ++ joinedTexts t) ++ joinedTexts l2
    rw [ih, String.append_assoc]

/-- The text-only loop invariant from the clean start accumulator. -/
theorem processChunks_textInv0 (aid : MsgId) {msgs0 : List ChatMessage}
    {l : List Chunk}
    (hm0 : ∀ x ∈ msgs0, ¬ x.id = aid)
    (hok : ∀ c ∈ l, c.error = none ∧ ∀ r, c.response = some r → r.toolCalls = none) :
    processChunks aid { msgs := msgs0, response := "", calls := [], errored := false } l
      = { msgs := msgs0 ++ respTail aid (joinedTexts l),
          response := joinedTexts l, calls := [], errored := false } := by
  have h := processChunks_textInv hm0 hok "" []
  rw [respTail_empty aid, List.append_nil] at h
  rw [h, String.empty_append]

/-- Composition of the guarded entry, a successful history phase, the
dispatch-and-consume stage and the finally block: the whole handler result
described against the history phase's output state. -/
theorem handleSendMessage_stream_spec (env : Env) (oc : Oracles) (st0 : TurnState)
    (agent : Agent) (cfg : LLMConfig) (hp : HistoryPhaseResult)
    (htrim : ¬ jsTrim env.userInput = "")
    (hagent : env.agent = some agent)
    (hcfg : env.llmConfigs.find? (fun c => c.provider = agent.llmProvider) = some cfg)
    (hcen : cfg.enabled = true) (hckey : ¬ cfg.apiKey = "")
    (hthrow : oc.primaryThrow = none) (hfthrow : oc.followThrow = none)
    (hhist : historyPhaseE env.tr agent env.llmConfigs oc.summarize st0.messages
      (mkUserMessage agent env.attachedFile (jsTrim env.userInput) st0.clock)
      (entrySt env agent st0) = .ok hp)
    (hfresh2 : Fresh hp.st.messages hp.st.clock)
    (pre rest : List ChatMessage) (hsplit : hp.st.messages = pre ++ rest)
    (hstatus : ∀ x ∈ pre, ¬ x.status = some MsgStatus.executingTool) :
    ∃ (st2 : TurnState) (rest2 : List ChatMessage) (extra : List DispatchEvent),
      handleSendMessage env oc st0 = { st2 with executing := false } ∧
      st2.messages = pre ++ rest2 ∧
      (∀ m ∈ rest2, (∃ y ∈ rest, m.id = y.id ∧ m.sender = y.sender) ∨
        hp.st.clock ≤ m.id.time) ∧
      st2.trace = hp.st.trace ++ primaryEv agent cfg st0.messages
        (mkUserMessage agent env.attachedFile (jsTrim env.userInput) st0.clock) :: extra ∧
      completeCount extra = 0 ∧
      streamCount extra = (if 0 < (primaryAcc oc hp.st).calls.length ∧
        (agent.capabilities.getD []).any (fun c => c = LLMCapability.chat) = true
        then 1 else 0) ∧
      (oc.primaryChunks = [] → st2.messages = hp.st.messages ∧ extra = []) ∧
      (0 < (primaryAcc oc hp.st).calls.length →
        (agent.capabilities.getD []).any (fun c => c = LLMCapability.chat) = false →
        toolResultCount st2.messages
          = toolResultCount hp.st.messages + (primaryAcc oc hp.st).calls.length) := by
  obtain ⟨st2, rest2, extra, hok2, hm2, hmem2, hfr2, hc2, he2, ht2, hcc2, hsc2,
    hemp2, htrc2⟩ :=
    streamPhase_spec env.tr agent cfg oc st0.messages
      (mkUserMessage agent env.attachedFile (jsTrim env.userInput) st0.clock)
      hp.st hthrow hfthrow hfresh2 pre rest hsplit hstatus
  have hbody : turnBody env.tr agent cfg env.llmConfigs oc st0.messages
      (mkUserMessage agent env.attachedFile (jsTrim env.userInput) st0.clock)
      (entrySt env agent st0) = .ok st2 := by
    rw [turnBody_ok env.tr agent cfg env.llmConfigs oc st0.messages
      (mkUserMessage agent env.attachedFile (jsTrim env.userInput) st0.clock)
      (entrySt env agent st0) hp hhist]
    exact hok2
  exact ⟨st2, rest2, extra,
    handleSendMessage_ok env oc st0 agent cfg st2 htrim hagent hcfg hcen hckey hbody,
    hm2, hmem2, ht2, hcc2, hsc2, hemp2, htrc2⟩

/-
The claims.
-/

/-- C2 counterexample: with messageCount threshold 5, five prior messages
and a primary stream yielding one text chunk, the 6th submission ends with
a post-turn history of length 3 (summary, triggering user message, streamed
agent reply) — not exactly 2 as the claim states. -/
theorem compaction_length_counterexample :
    exHistCfg.enabled = true ∧ exHistCfg.limits.message = 5 ∧
    exSt5.messages.length = 5 ∧
    (handleSendMessage exEnv exOcText exSt5).messages.length = 3 := by
  refine ⟨rfl, rfl, rfl, ?_⟩
  decide

/-- C2 (amended form): in the compaction scenario the store is replaced
mid-turn by exactly the summary and the triggering user message, and every
further message of the post-turn history was minted by the same turn (its
id clock is at or after the submission clock) — no third pre-existing
message is retained; with an empty primary stream the post-turn history is
exactly the two messages, and the handler ends idle. -/
theorem compaction_replaces_history (env : Env) (oc : Oracles) (st0 : TurnState)
    (agent : Agent) (h : HistoryConfig) (cfg summCfg : LLMConfig)
    (summaryText : String)
    (htrim : ¬ jsTrim env.userInput = "")
    (hagent : env.agent = some agent)
    (hcfg : env.llmConfigs.find? (fun c => c.provider = agent.llmProvider) = some cfg)
    (hcen : cfg.enabled = true) (hckey : ¬ cfg.apiKey = "")
    (hhc : agent.historyConfig = some h) (hen : h.enabled = true)
    (hlim : h.limits.message = 5) (hlen : st0.messages.length = 5)
    (hsum : env.llmConfigs.find? (fun c => c.provider = h.llmProvider) = some summCfg)
    (hok : oc.summarize = .ok summaryText)
    (hthrow : oc.primaryThrow = none) (hfthrow : oc.followThrow = none) :
    ∃ rest2,
      (handleSendMessage env oc st0).messages
        = { id := { time := st0.clock + 2, tag := IdTag.summaryTag }
            sender := Sender.agent
            text := "(Résumé de l\x27historique): " ++ summaryText }
          :: mkUserMessage agent env.attachedFile (jsTrim env.userInput) st0.clock
          :: rest2 ∧
      (∀ m ∈ rest2, st0.clock ≤ m.id.time) ∧
      (oc.primaryChunks = [] →
        (handleSendMessage env oc st0).messages
          = [{ id := { time := st0.clock + 2, tag := IdTag.summaryTag }
               sender := Sender.agent
               text := "(Résumé de l\x27historique): " ++ summaryText },
             mkUserMessage agent env.attachedFile (jsTrim env.userInput) st0.clock]) ∧
      (handleSendMessage env oc st0).executing = false := by
  have hu := mkUserMessage_fields agent env.attachedFile (jsTrim env.userInput) st0.clock
  have hne : 0 < st0.messages.length := by omega
  have hdue : countMessages (st0.messages ++
      [mkUserMessage agent env.attachedFile (jsTrim env.userInput) st0.clock])
      ≥ h.limits.message := by
    rw [hlim]
    show (st0.messages ++
      [mkUserMessage agent env.attachedFile (jsTrim env.userInput) st0.clock]).length ≥ 5
    rw [List.length_append, hlen]
    show 5 + 1 ≥ 5
    omega
  have hcomp := historyPhaseE_compact env.tr agent env.llmConfigs summaryText
    st0.messages (mkUserMessage agent env.attachedFile (jsTrim env.userInput) st0.clock)
    (entrySt env agent st0) h summCfg hhc hen hne
    (Or.inr (Or.inr (Or.inr hdue))) hsum
  rw [← hok] at hcomp
  obtain ⟨st2, rest2, extra, hfin, hm2, hmem2, ht2, hcc2, hsc2, hemp2, htrc2⟩ :=
    handleSendMessage_stream_spec env oc st0 agent cfg _
      htrim hagent hcfg hcen hckey hthrow hfthrow hcomp
      (by
        intro m hm
        rcases List.mem_cons.mp hm with he | hm2
        · rw [he]
          show st0.clock + 2 < st0.clock + 3
          omega
        · rw [List.mem_singleton.mp hm2, hu.1]
          show st0.clock < st0.clock + 3
          omega)
      [{ id := { time := st0.clock + 2, tag := IdTag.summaryTag }
         sender := Sender.agent
         text := "(Résumé de l\x27historique): " ++ summaryText },
       mkUserMessage agent env.attachedFile (jsTrim env.userInput) st0.clock] []
      ((List.append_nil _).symm)
      (by
        intro x hx
        rcases List.mem_cons.mp hx with he | hx2
        · rw [he]
          intro hc
          exact Option.noConfusion hc
        · rw [List.mem_singleton.mp hx2, hu.2.2.1]
          decide)
  refine ⟨rest2, ?_, ?_, ?_, ?_⟩
  · rw [hfin]
    show st2.messages = _
    rw [hm2]
    rfl
  · intro m hm
    rcases hmem2 m hm with ⟨y, hy, _⟩ | hle
    · exact absurd hy (List.not_mem_nil y)
    · have hle2 : st0.clock + 3 ≤ m.id.time := hle
      omega
  · intro hch
    rw [hfin]
    show st2.messages = _
    rw [(hemp2 hch).1]
    rfl
  · rw [hfin]

/-- C3 counterexample: with an empty prior history and messageCount
threshold 1, the policy is enabled and the counters over history plus the
new message meet the threshold, yet no summarization completion call is
dispatched and the post-turn history is the user message and the streamed
reply — the code additionally requires a non-empty prior history before
compacting. -/
theorem compaction_gate_counterexample :
    exAgent1.historyConfig = some { exHistCfg with limits := exLimits1 } ∧
    ({ exHistCfg with limits := exLimits1 } : HistoryConfig).enabled = true ∧
    countMessages (exStEmpty.messages ++
        [mkUserMessage exAgent1 exEnv1.attachedFile (jsTrim exEnv1.userInput)
          exStEmpty.clock])
      ≥ ({ exHistCfg with limits := exLimits1 } : HistoryConfig).limits.message ∧
    completeCount (handleSendMessage exEnv1 exOcText exStEmpty).trace = 0 ∧
    (handleSendMessage exEnv1 exOcText exStEmpty).messages.length = 2 := by
  exact ⟨rfl, rfl, by decide, by decide, by decide⟩

/-- C3 (amended form): with the policy enabled, a non-empty prior history
and any one of the four counters over history plus the new user message at
or over its threshold, compaction runs before the primary dispatch: one
non-streaming completion call is issued with the policy's provider, model
and prompt over one synthetic user message rendering the transcript as
sender-colon-text lines, the store is replaced by the summary and the
triggering user message, and only then the primary stream is dispatched. -/
theorem compaction_on_threshold (env : Env) (oc : Oracles) (st0 : TurnState)
    (agent : Agent) (h : HistoryConfig) (cfg summCfg : LLMConfig)
    (summaryText : String)
    (htrim : ¬ jsTrim env.userInput = "")
    (hagent : env.agent = some agent)
    (hcfg : env.llmConfigs.find? (fun c => c.provider = agent.llmProvider) = some cfg)
    (hcen : cfg.enabled = true) (hckey : ¬ cfg.apiKey = "")
    (hhc : agent.historyConfig = some h) (hen : h.enabled = true)
    (hne : 0 < st0.messages.length)
    (hdue : countTokens (st0.messages ++
        [mkUserMessage agent env.attachedFile (jsTrim env.userInput) st0.clock])
        ≥ h.limits.token ∨
      countWords (st0.messages ++
        [mkUserMessage agent env.attachedFile (jsTrim env.userInput) st0.clock])
        ≥ h.limits.word ∨
      countSentences (st0.messages ++
        [mkUserMessage agent env.attachedFile (jsTrim env.userInput) st0.clock])
        ≥ h.limits.sentence ∨
      countMessages (st0.messages ++
        [mkUserMessage agent env.attachedFile (jsTrim env.userInput) st0.clock])
        ≥ h.limits.message)
    (hsum : env.llmConfigs.find? (fun c => c.provider = h.llmProvider) = some summCfg)
    (hok : oc.summarize = .ok summaryText)
    (hthrow : oc.primaryThrow = none) (hfthrow : oc.followThrow = none) :
    ∃ (rest2 : List ChatMessage) (extra : List DispatchEvent),
      (handleSendMessage env oc st0).trace
        = st0.trace ++
          DispatchEvent.complete summCfg.provider summCfg.apiKey h.model
            h.systemPrompt
            [{ id := { time := st0.clock + 1, tag := IdTag.summaryPromptTag }
               sender := Sender.user
               text := env.tr "conversation_to_summarize" ++ ":\n\n" ++
                 String.intercalate "\n" ((st0.messages ++
                   [mkUserMessage agent env.attachedFile (jsTrim env.userInput)
                     st0.clock]).map
                   (fun m => senderStr m.sender ++ ": " ++ m.text)) }]
          :: primaryEv agent cfg st0.messages
               (mkUserMessage agent env.attachedFile (jsTrim env.userInput) st0.clock)
          :: extra ∧
      (handleSendMessage env oc st0).messages
        = { id := { time := st0.clock + 2, tag := IdTag.summaryTag }
            sender := Sender.agent
            text := "(Résumé de l\x27historique): " ++ summaryText }
          :: mkUserMessage agent env.attachedFile (jsTrim env.userInput) st0.clock
          :: rest2 ∧
      (handleSendMessage env oc st0).executing = false := by
  have hu := mkUserMessage_fields agent env.attachedFile (jsTrim env.userInput) st0.clock
  have hcomp := historyPhaseE_compact env.tr agent env.llmConfigs summaryText
    st0.messages (mkUserMessage agent env.attachedFile (jsTrim env.userInput) st0.clock)
    (entrySt env agent st0) h summCfg hhc hen hne hdue hsum
  rw [← hok] at hcomp
  obtain ⟨st2, rest2, extra, hfin, hm2, hmem2, ht2, hcc2, hsc2, hemp2, htrc2⟩ :=
    handleSendMessage_stream_spec env oc st0 agent cfg _
      htrim hagent hcfg hcen hckey hthrow hfthrow hcomp
      (by
        intro m hm
        rcases List.mem_cons.mp hm with he | hm2
        · rw [he]
          show st0.clock + 2 < st0.clock + 3
          omega
        · rw [List.mem_singleton.mp hm2, hu.1]
          show st0.clock < st0.clock + 3
          omega)
      [{ id := { time := st0.clock + 2, tag := IdTag.summaryTag }
         sender := Sender.agent
         text := "(Résumé de l\x27historique): " ++ summaryText },
       mkUserMessage agent env.attachedFile (jsTrim env.userInput) st0.clock] []
      ((List.append_nil _).symm)
      (by
        intro x hx
        rcases List.mem_cons.mp hx with he | hx2
        · rw [he]
          intro hc
          exact Option.noConfusion hc
        · rw [List.mem_singleton.mp hx2, hu.2.2.1]
          decide)
  refine ⟨rest2, extra, ?_, ?_, ?_⟩
  · rw [hfin]
    show st2.trace = _
    rw [ht2]
    show (st0.trace ++
        [DispatchEvent.complete summCfg.provider summCfg.apiKey h.model
          h.systemPrompt
          [{ id := { time := st0.clock + 1, tag := IdTag.summaryPromptTag }
             sender := Sender.user
             text := env.tr "conversation_to_summarize" ++ ":\n\n" ++
               String.intercalate "\n" ((st0.messages ++
                 [mkUserMessage agent env.attachedFile (jsTrim env.userInput)
                   st0.clock]).map
                 (fun m => senderStr m.sender ++ ": " ++ m.text)) }]]) ++
      primaryEv agent cfg st0.messages
        (mkUserMessage agent env.attachedFile (jsTrim env.userInput) st0.clock)
      :: extra = _
    rw [List.append_assoc]
    rfl
  · rw [hfin]
    show st2.messages = _
    rw [hm2]
    rfl
  · rw [hfin]

/-- Witness for C3: the five-message session triggers the message counter,
dispatches the summarization completion and then the primary stream, and
ends with the compacted store. -/
theorem compaction_on_threshold_witness :
    ∃ (rest2 : List ChatMessage) (extra : List DispatchEvent),
      (handleSendMessage exEnv exOcEmpty exSt5).trace
        = exSt5.trace ++
          DispatchEvent.complete exCfg.provider exCfg.apiKey exHistCfg.model
            exHistCfg.systemPrompt
            [{ id := { time := exSt5.clock + 1, tag := IdTag.summaryPromptTag }
               sender := Sender.user
               text := exEnv.tr "conversation_to_summarize" ++ ":\n\n" ++
                 String.intercalate "\n" ((exSt5.messages ++
                   [mkUserMessage exAgent exEnv.attachedFile (jsTrim exEnv.userInput)
                     exSt5.clock]).map
                   (fun m => senderStr m.sender ++ ": " ++ m.text)) }]
          :: primaryEv exAgent exCfg exSt5.messages
               (mkUserMessage exAgent exEnv.attachedFile (jsTrim exEnv.userInput)
                 exSt5.clock)
          :: extra ∧
      (handleSendMessage exEnv exOcEmpty exSt5).messages
        = { id := { time := exSt5.clock + 2, tag := IdTag.summaryTag }
            sender := Sender.agent
            text := "(Résumé de l\x27historique): " ++ "tout va bien" }
          :: mkUserMessage exAgent exEnv.attachedFile (jsTrim exEnv.userInput)
               exSt5.clock
          :: rest2 ∧
      (handleSendMessage exEnv exOcEmpty exSt5).executing = false :=
  compaction_on_threshold exEnv exOcEmpty exSt5 exAgent exHistCfg exCfg exCfg
    "tout va bien" (by decide) rfl rfl rfl (by decide) rfl rfl (by decide)
    (Or.inr (Or.inr (Or.inr (by decide)))) rfl rfl rfl rfl

/-- C4: the primary streaming dispatch is recorded with the render-time
snapshot plus the new user message as its history argument; the per-call
history the policy block computes (conversationHistoryForAPI) is never what
is passed: when the policy is absent it is the user message alone and
differs from the dispatched history whenever the snapshot is non-empty,
and in general any policy-computed history of a different length (the
compacted two-element history, the lone user message) is not the dispatched
history. -/
theorem primary_dispatch_ignores_policy_history (env : Env) (oc : Oracles)
    (st0 : TurnState) (agent : Agent) (cfg : LLMConfig) (hp : HistoryPhaseResult)
    (htrim : ¬ jsTrim env.userInput = "")
    (hagent : env.agent = some agent)
    (hcfg : env.llmConfigs.find? (fun c => c.provider = agent.llmProvider) = some cfg)
    (hcen : cfg.enabled = true) (hckey : ¬ cfg.apiKey = "")
    (hthrow : oc.primaryThrow = none) (hfthrow : oc.followThrow = none)
    (hhist : historyPhaseE env.tr agent env.llmConfigs oc.summarize st0.messages
      (mkUserMessage agent env.attachedFile (jsTrim env.userInput) st0.clock)
      (entrySt env agent st0) = .ok hp)
    (hfresh2 : Fresh hp.st.messages hp.st.clock) :
    ∃ extra,
      (handleSendMessage env oc st0).trace
        = hp.st.trace ++ primaryEv agent cfg st0.messages
            (mkUserMessage agent env.attachedFile (jsTrim env.userInput) st0.clock)
          :: extra ∧
      (primaryEv agent cfg st0.messages
        (mkUserMessage agent env.attachedFile (jsTrim env.userInput) st0.clock)).history
        = st0.messages ++
          [mkUserMessage agent env.attachedFile (jsTrim env.userInput) st0.clock] ∧
      (agent.historyConfig = none →
        hp.apiHistory =
          [mkUserMessage agent env.attachedFile (jsTrim env.userInput) st0.clock] ∧
        (st0.messages ≠ [] →
          (primaryEv agent cfg st0.messages
            (mkUserMessage agent env.attachedFile (jsTrim env.userInput)
              st0.clock)).history ≠ hp.apiHistory)) ∧
      (∀ h2, agent.historyConfig = some h2 → h2.enabled = false →
        hp.apiHistory =
          [mkUserMessage agent env.attachedFile (jsTrim env.userInput) st0.clock]) ∧
      (hp.apiHistory.length ≠ st0.messages.length + 1 →
        (primaryEv agent cfg st0.messages
          (mkUserMessage agent env.attachedFile (jsTrim env.userInput)
            st0.clock)).history ≠ hp.apiHistory) := by
  obtain ⟨st2, rest2, extra, hfin, hm2, hmem2, ht2, hcc2, hsc2, hemp2, htrc2⟩ :=
    handleSendMessage_stream_spec env oc st0 agent cfg hp
      htrim hagent hcfg hcen hckey hthrow hfthrow hhist hfresh2
      [] hp.st.messages rfl (fun x hx => absurd hx (List.not_mem_nil x))
  have hne4 : ∀ (hl : hp.apiHistory.length ≠ st0.messages.length + 1),
      (primaryEv agent cfg st0.messages
        (mkUserMessage agent env.attachedFile (jsTrim env.userInput)
          st0.clock)).history ≠ hp.apiHistory := by
    intro hl heq
    apply hl
    rw [← heq]
    show (st0.messages ++
      [mkUserMessage agent env.attachedFile (jsTrim env.userInput) st0.clock]).length
      = st0.messages.length + 1
    rw [List.length_append]
    rfl
  refine ⟨extra, ?_, rfl, ?_, ?_, hne4⟩
  · rw [hfin]
    show st2.trace = _
    exact ht2
  · intro hnone
    have h2 := historyPhaseE_noPolicy env.tr agent env.llmConfigs oc.summarize
      st0.messages (mkUserMessage agent env.attachedFile (jsTrim env.userInput) st0.clock)
      (entrySt env agent st0) hnone
    rw [h2] at hhist
    have h3 : hp =
        { apiHistory :=
            [mkUserMessage agent env.attachedFile (jsTrim env.userInput) st0.clock]
          st := entrySt env agent st0 } := (Except.ok.inj hhist).symm
    refine ⟨by rw [h3], ?_⟩
    intro hne0
    refine hne4 ?_
    rw [h3]
    show (1 : Nat) ≠ st0.messages.length + 1
    have hpos : 0 < st0.messages.length := List.length_pos.mpr hne0
    omega
  · intro h2 hhc2 hen2
    have h5 := historyPhaseE_disabled env.tr agent env.llmConfigs oc.summarize
      st0.messages (mkUserMessage agent env.attachedFile (jsTrim env.userInput) st0.clock)
      (entrySt env agent st0) h2 hhc2 hen2
    rw [h5] at hhist
    have h3 : hp =
        { apiHistory :=
            [mkUserMessage agent env.attachedFile (jsTrim env.userInput) st0.clock]
          st := entrySt env agent st0 } := (Except.ok.inj hhist).symm
    rw [h3]

/-- Witness for C4: submitting to the policy-free agent over the one-message
session dispatches the stream with the stored message plus the user message
while the policy-computed history is the user message alone. -/
theorem primary_dispatch_ignores_policy_history_witness :
    ∃ extra,
      (handleSendMessage exEnvPlain exOcText exSt5).trace
        = (entrySt exEnvPlain exAgentPlain exSt5).trace ++
          primaryEv exAgentPlain exCfg exSt5.messages
            (mkUserMessage exAgentPlain exEnvPlain.attachedFile
              (jsTrim exEnvPlain.userInput) exSt5.clock)
          :: extra ∧
      (primaryEv exAgentPlain exCfg exSt5.messages
        (mkUserMessage exAgentPlain exEnvPlain.attachedFile
          (jsTrim exEnvPlain.userInput) exSt5.clock)).history
        = exSt5.messages ++
          [mkUserMessage exAgentPlain exEnvPlain.attachedFile
            (jsTrim exEnvPlain.userInput) exSt5.clock] ∧
      (exAgentPlain.historyConfig = none →
        ({ apiHistory :=
            [mkUserMessage exAgentPlain exEnvPlain.attachedFile
              (jsTrim exEnvPlain.userInput) exSt5.clock]
           st := entrySt exEnvPlain exAgentPlain exSt5 } : HistoryPhaseResult).apiHistory =
          [mkUserMessage exAgentPlain exEnvPlain.attachedFile
            (jsTrim exEnvPlain.userInput) exSt5.clock] ∧
        (exSt5.messages ≠ [] →
          (primaryEv exAgentPlain exCfg exSt5.messages
            (mkUserMessage exAgentPlain exEnvPlain.attachedFile
              (jsTrim exEnvPlain.userInput) exSt5.clock)).history ≠
          ({ apiHistory :=
              [mkUserMessage exAgentPlain exEnvPlain.attachedFile
                (jsTrim exEnvPlain.userInput) exSt5.clock]
             st := entrySt exEnvPlain exAgentPlain exSt5 } : HistoryPhaseResult).apiHistory)) ∧
      (∀ h2, exAgentPlain.historyConfig = some h2 → h2.enabled = false →
        ({ apiHistory :=
            [mkUserMessage exAgentPlain exEnvPlain.attachedFile
              (jsTrim exEnvPlain.userInput) exSt5.clock]
           st := entrySt exEnvPlain exAgentPlain exSt5 } : HistoryPhaseResult).apiHistory =
          [mkUserMessage exAgentPlain exEnvPlain.attachedFile
            (jsTrim exEnvPlain.userInput) exSt5.clock]) ∧
      (({ apiHistory :=
           [mkUserMessage exAgentPlain exEnvPlain.attachedFile
             (jsTrim exEnvPlain.userInput) exSt5.clock]
          st := entrySt exEnvPlain exAgentPlain exSt5 } : HistoryPhaseResult).apiHistory.length
          ≠ exSt5.messages.length + 1 →
        (primaryEv exAgentPlain exCfg exSt5.messages
          (mkUserMessage exAgentPlain exEnvPlain.attachedFile
            (jsTrim exEnvPlain.userInput) exSt5.clock)).history ≠
        ({ apiHistory :=
            [mkUserMessage exAgentPlain exEnvPlain.attachedFile
              (jsTrim exEnvPlain.userInput) exSt5.clock]
           st := entrySt exEnvPlain exAgentPlain exSt5 } : HistoryPhaseResult).apiHistory) :=
  primary_dispatch_ignores_policy_history exEnvPlain exOcText exSt5 exAgentPlain
    exCfg
    { apiHistory :=
        [mkUserMessage exAgentPlain exEnvPlain.attachedFile
          (jsTrim exEnvPlain.userInput) exSt5.clock]
      st := entrySt exEnvPlain exAgentPlain exSt5 }
    (by decide) rfl rfl rfl (by decide) rfl rfl rfl (freshOfAll (by decide))

/-- C8: for a turn that records tool calls, a follow-up stream call is
issued if and only if the agent declares the Chat capability: the handler
issues exactly two streaming dispatches with Chat and exactly one without,
ends idle either way, and without Chat the tool_result messages are left in
the history, one per recorded call. -/
theorem followUp_gating (env : Env) (oc : Oracles) (st0 : TurnState)
    (agent : Agent) (cfg : LLMConfig) (hp : HistoryPhaseResult)
    (htrim : ¬ jsTrim env.userInput = "")
    (hagent : env.agent = some agent)
    (hcfg : env.llmConfigs.find? (fun c => c.provider = agent.llmProvider) = some cfg)
    (hcen : cfg.enabled = true) (hckey : ¬ cfg.apiKey = "")
    (hthrow : oc.primaryThrow = none) (hfthrow : oc.followThrow = none)
    (hhist : historyPhaseE env.tr agent env.llmConfigs oc.summarize st0.messages
      (mkUserMessage agent env.attachedFile (jsTrim env.userInput) st0.clock)
      (entrySt env agent st0) = .ok hp)
    (hfresh2 : Fresh hp.st.messages hp.st.clock)
    (hcalls : 0 < (primaryAcc oc hp.st).calls.length) :
    (handleSendMessage env oc st0).executing = false ∧
    streamCount (handleSendMessage env oc st0).trace
      = streamCount hp.st.trace +
        (if (agent.capabilities.getD []).any (fun c => c = LLMCapability.chat) = true
         then 2 else 1) ∧
    ((agent.capabilities.getD []).any (fun c => c = LLMCapability.chat) = false →
      toolResultCount (handleSendMessage env oc st0).messages
        = toolResultCount hp.st.messages + (primaryAcc oc hp.st).calls.length) := by
  obtain ⟨st2, rest2, extra, hfin, hm2, hmem2, ht2, hcc2, hsc2, hemp2, htrc2⟩ :=
    handleSendMessage_stream_spec env oc st0 agent cfg hp
      htrim hagent hcfg hcen hckey hthrow hfthrow hhist hfresh2
      [] hp.st.messages rfl (fun x hx => absurd hx (List.not_mem_nil x))
  refine ⟨by rw [hfin], ?_, ?_⟩
  · rw [hfin]
    show streamCount st2.trace = _
    rw [ht2, streamCount_append]
    simp only [primaryEv]
    rw [streamCount_cons_stream, hsc2]
    by_cases hchat : (agent.capabilities.getD []).any
        (fun c => c = LLMCapability.chat) = true
    · rw [if_pos ⟨hcalls, hchat⟩, if_pos hchat]
    · rw [if_neg (fun hand => hchat hand.2), if_neg hchat]
  · intro hchatF
    rw [hfin]
    show toolResultCount st2.messages = _
    exact htrc2 hcalls hchatF

/-- Witness for C8: the tool-declaring no-chat agent ends idle after one
single streaming dispatch, with one tool_result per recorded call left in
the store. -/
theorem followUp_gating_witness :
    (handleSendMessage exEnvNoChat exOcTools exStEmpty).executing = false ∧
    streamCount (handleSendMessage exEnvNoChat exOcTools exStEmpty).trace
      = streamCount (entrySt exEnvNoChat exAgentNoChat exStEmpty).trace +
        (if (exAgentNoChat.capabilities.getD []).any
            (fun c => c = LLMCapability.chat) = true
         then 2 else 1) ∧
    ((exAgentNoChat.capabilities.getD []).any
        (fun c => c = LLMCapability.chat) = false →
      toolResultCount (handleSendMessage exEnvNoChat exOcTools exStEmpty).messages
        = toolResultCount (entrySt exEnvNoChat exAgentNoChat exStEmpty).messages +
          (primaryAcc exOcTools (entrySt exEnvNoChat exAgentNoChat exStEmpty)).calls.length) :=
  followUp_gating exEnvNoChat exOcTools exStEmpty exAgentNoChat exCfg
    { apiHistory :=
        [mkUserMessage exAgentNoChat exEnvNoChat.attachedFile
          (jsTrim exEnvNoChat.userInput) exStEmpty.clock]
      st := entrySt exEnvNoChat exAgentNoChat exStEmpty }
    (by decide) rfl rfl rfl (by decide) rfl rfl rfl (freshOfAll (by decide))
    (by decide)

/-- Witness for C2: the concrete five-message session with an empty primary
stream ends with exactly the summary and user messages and idle. -/
theorem compaction_replaces_history_witness :
    ∃ rest2,
      (handleSendMessage exEnv exOcEmpty exSt5).messages
        = { id := { time := exSt5.clock + 2, tag := IdTag.summaryTag }
            sender := Sender.agent
            text := "(Résumé de l\x27historique): " ++ "tout va bien" }
          :: mkUserMessage exAgent exEnv.attachedFile (jsTrim exEnv.userInput)
               exSt5.clock
          :: rest2 ∧
      (∀ m ∈ rest2, exSt5.clock ≤ m.id.time) ∧
      (exOcEmpty.primaryChunks = [] →
        (handleSendMessage exEnv exOcEmpty exSt5).messages
          = [{ id := { time := exSt5.clock + 2, tag := IdTag.summaryTag }
               sender := Sender.agent
               text := "(Résumé de l\x27historique): " ++ "tout va bien" },
             mkUserMessage exAgent exEnv.attachedFile (jsTrim exEnv.userInput)
               exSt5.clock]) ∧
      (handleSendMessage exEnv exOcEmpty exSt5).executing = false :=
  compaction_replaces_history exEnv exOcEmpty exSt5 exAgent exHistCfg exCfg exCfg
    "tout va bien" (by decide) rfl rfl rfl (by decide) rfl rfl rfl rfl rfl rfl
    rfl rfl

/-- C1: a submit issued while the session is executing is a complete no-op:
the message sequence, the executing flag, the clock and the dispatch trace
are all unchanged (the submission controls are disabled with isLoading, so
the handler cannot run at all). -/
theorem submit_noop_while_executing (env : Env) (oc : Oracles) (st : TurnState)
    (h : st.executing = true) :
    submit env oc st = st := by
  unfold submit
  rw [if_pos h]

/-- Witness for C1: a concrete busy session is returned unchanged. -/
theorem submit_noop_while_executing_witness :
    exStBusy.executing = true ∧ submit exEnv exOcText exStBusy = exStBusy :=
  ⟨rfl, submit_noop_while_executing exEnv exOcText exStBusy rfl⟩

/-- C6: tool batch isolation — over a fresh store the tool loop appends
exactly one tool_result message per recorded ToolCall, in issuance order;
the i-th result belongs to the i-th call (its toolCallId and toolName) and
is error-flagged exactly when executing that call threw, so one throwing
call never blocks its siblings. -/
theorem toolBatch_isolation (exec : ToolCall → Except String String)
    (tcs : List ToolCall) (msgs : List ChatMessage) (clock : Nat)
    (hf : Fresh msgs clock) :
    (runTools exec tcs msgs clock).1 = msgs ++ toolMsgs exec tcs clock ∧
    (toolMsgs exec tcs clock).length = tcs.length ∧
    (∀ (i : Nat) (tc : ToolCall) (m : ChatMessage),
      tcs[i]? = some tc → (toolMsgs exec tcs clock)[i]? = some m →
      m.sender = Sender.toolResult ∧ m.toolCallId = some tc.id ∧
      m.toolName = some tc.name ∧ (m.isError = true ↔ ∃ e, exec tc = .error e)) := by
  refine ⟨?_, toolMsgs_length tcs clock, ?_⟩
  · rw [runTools_spec hf]
  · intro i tc m h1 h2
    exact toolMsgs_get tcs clock i tc m h1 h2

/-- Witness for C6: three calls with the second throwing give exactly three
results, with only the second error-flagged. -/
theorem toolBatch_isolation_witness :
    Fresh ([] : List ChatMessage) 0 ∧
    ((runTools exExec exToolCalls [] 0).1 = [] ++ toolMsgs exExec exToolCalls 0 ∧
      (toolMsgs exExec exToolCalls 0).length = exToolCalls.length ∧
      (∀ (i : Nat) (tc : ToolCall) (m : ChatMessage), exToolCalls[i]? = some tc →
        (toolMsgs exExec exToolCalls 0)[i]? = some m →
        m.sender = Sender.toolResult ∧ m.toolCallId = some tc.id ∧
        m.toolName = some tc.name ∧ (m.isError = true ↔ ∃ e, exExec tc = .error e))) ∧
    (toolMsgs exExec exToolCalls 0).map (fun m => m.isError) = [false, true, false] :=
  ⟨fun m hm => absurd hm (List.not_mem_nil m),
   toolBatch_isolation exExec exToolCalls [] 0 (fun m hm => absurd hm (List.not_mem_nil m)),
   by decide⟩

/-- C7: an error increment arriving after text increments were accumulated
converts the in-progress agent message into an error message carrying the
error text — the partially accumulated text is discarded, only the error
message remains under the stream id — and the loop breaks, never consuming
the chunks after the error. -/
theorem errorIncrement_discards_partial (aid : MsgId) (msgs0 : List ChatMessage)
    (pre : List Chunk) (c0 : Chunk) (post : List Chunk) (e : String)
    (hm0 : ∀ x ∈ msgs0, ¬ x.id = aid)
    (hpre : ∀ c ∈ pre, c.error = none ∧ ∀ r, c.response = some r → r.toolCalls = none)
    (he : c0.error = some e) :
    processChunks aid { msgs := msgs0, response := "", calls := [], errored := false }
        (pre ++ c0 :: post)
      = processChunks aid { msgs := msgs0, response := "", calls := [], errored := false }
        (pre ++ [c0]) ∧
    (processChunks aid { msgs := msgs0, response := "", calls := [], errored := false }
        (pre ++ c0 :: post)).errored = true ∧
    (processChunks aid { msgs := msgs0, response := "", calls := [], errored := false }
        (pre ++ c0 :: post)).msgs
      = msgs0 ++ [{ id := aid, sender := .agent, text := e, isError := true }] := by
  have hpreA := processChunks_textInv0 aid hm0 hpre
  have herrA : (processChunks aid
      { msgs := msgs0, response := "", calls := [], errored := false } pre).errored
      = false := by
    rw [hpreA]
  have hstep : chunkStep aid (processChunks aid
      { msgs := msgs0, response := "", calls := [], errored := false } pre) c0
      = { processChunks aid
            { msgs := msgs0, response := "", calls := [], errored := false } pre with
          msgs := addNodeMessage (processChunks aid
            { msgs := msgs0, response := "", calls := [], errored := false } pre).msgs
            { id := aid, sender := .agent, text := e, isError := true },
          errored := true } := chunkStep_error_some he
  have hone : ∀ post2 : List Chunk,
      processChunks aid { msgs := msgs0, response := "", calls := [], errored := false }
        (pre ++ c0 :: post2)
      = { processChunks aid
            { msgs := msgs0, response := "", calls := [], errored := false } pre with
          msgs := addNodeMessage (processChunks aid
            { msgs := msgs0, response := "", calls := [], errored := false } pre).msgs
            { id := aid, sender := .agent, text := e, isError := true },
          errored := true } := by
    intro post2
    rw [processChunks_append rfl, if_neg (by rw [herrA]; decide)]
    simp only [processChunks, hstep]
    rfl
  have hmsgs : addNodeMessage (processChunks aid
      { msgs := msgs0, response := "", calls := [], errored := false } pre).msgs
      { id := aid, sender := .agent, text := e, isError := true }
      = msgs0 ++ [{ id := aid, sender := .agent, text := e, isError := true }] := by
    rw [hpreA]
    exact addNodeMessage_respTail hm0 (joinedTexts pre) _ rfl
  refine ⟨?_, ?_, ?_⟩
  · rw [hone post, hone []]
  · rw [hone post]
  · rw [hone post]
    exact hmsgs

/-- Witness for C7: a text chunk, then an error chunk, then a never-reached
text chunk leave exactly the error message in the store. -/
theorem errorIncrement_discards_partial_witness :
    (processChunks { time := 100, tag := IdTag.agentTag }
        { msgs := [], response := "", calls := [], errored := false }
        ([{ response := some { text := some "par" } }] ++
          { error := some "boom" } :: [{ response := some { text := some "jamais" } }])).msgs
      = [{ id := { time := 100, tag := IdTag.agentTag }, sender := .agent,
           text := "boom", isError := true }] ∧
    (processChunks { time := 100, tag := IdTag.agentTag }
        { msgs := [], response := "", calls := [], errored := false }
        ([{ response := some { text := some "par" } }] ++
          { error := some "boom" } :: [{ response := some { text := some "jamais" } }])).errored
      = true := by
  have h := errorIncrement_discards_partial { time := 100, tag := IdTag.agentTag }
    [] [{ response := some { text := some "par" } }] { error := some "boom" }
    [{ response := some { text := some "jamais" } }] "boom"
    (fun m hm => absurd hm (List.not_mem_nil m)) (textOnlyChunks (by decide)) rfl
  refine ⟨?_, h.2.1⟩
  rw [h.2.2]
  rfl

/-- C10 counterexample: fed a tool_result message whose text is not JSON —
exactly what the tool loop stores for a failed call (Erreur-prefixed
prose) — the dispatcher's streaming entry point throws across the
streaming boundary: formatHistory's JSON.parse runs before the try block of
the Gemini adapter, so no terminal error Increment is produced. -/
theorem dispatcherThrows_counterexample :
    llmGenerateContentStream LLMProvider.gemini
      [{ id := { time := 0, tag := IdTag.toolResultTag }, sender := .toolResult,
         text := "Erreur: boom", toolCallId := some "1",
         toolName := some "get_weather", isError := true }]
      (.ok ([], none)) 0
    = .error ("SyntaxError: Unexpected token in JSON: Erreur: boom") := by
  rfl

/-- C10 amended: once the history has passed formatHistory (whose JSON.parse
calls run before the try block and can throw), the streaming entry point
never throws: it always returns increments, a rejected network call is
surfaced as exactly one terminal error Increment, and an iterator throw not
preempted by the tool-call early return is appended as a terminal error
Increment after the passed-through chunks. -/
theorem dispatcher_noThrow_afterFormat (provider : LLMProvider)
    (history : List ChatMessage) (net : GNet) (clock : Nat)
    (gcs : List GContent)
    (hfmt : formatHistoryE history = .ok gcs) :
    (∃ cs, llmGenerateContentStream provider history net clock = .ok cs) ∧
    (∀ e, net = .error e →
      llmGenerateContentStream provider history net clock
        = .ok [{ error := some (geminiErrText e) }]) ∧
    (∀ chunks e, net = .ok (chunks, some e) →
      (geminiConsume clock chunks).2 = false →
      llmGenerateContentStream provider history net clock
        = .ok ((geminiConsume clock chunks).1 ++
            [{ error := some (geminiErrText e) }])) := by
  refine ⟨?_, ?_, ?_⟩ <;>
    simp only [llmGenerateContentStream, geminiGenerateContentStream, hfmt]
  · cases net with
    | error e => exact ⟨_, rfl⟩
    | ok pr =>
      by_cases h2 : (geminiConsume clock pr.1).2 = true
      · simp only [h2]
        exact ⟨_, rfl⟩
      · rw [Bool.not_eq_true] at h2
        simp only [h2]
        rw [if_neg (by decide : ¬ false = true)]
        cases hp2 : pr.2 with
        | some e => exact ⟨_, rfl⟩
        | none => exact ⟨_, rfl⟩
  · intro e he
    rw [he]
  · intro chunks e hne h2
    rw [hne]
    show (if (geminiConsume clock chunks).2 = true then _ else _) = _
    rw [if_neg (by rw [h2]; decide)]

/-- Witness for C10: a one-message history passes formatHistory, and a
rejected network call surfaces as one terminal error Increment. -/
theorem dispatcher_noThrow_afterFormat_witness :
    formatHistoryE [exMsg 0 .user "hello"]
      = .ok [{ role := "user", parts := [GPart.textPart "hello"] }] ∧
    llmGenerateContentStream LLMProvider.gemini [exMsg 0 .user "hello"]
      (.error "net down") 0
      = .ok [{ error := some (geminiErrText "net down") }] :=
  ⟨rfl,
   (dispatcher_noThrow_afterFormat LLMProvider.gemini [exMsg 0 .user "hello"]
     (.error "net down") 0 [{ role := "user", parts := [GPart.textPart "hello"] }]
     rfl).2.1 "net down" rfl⟩

/-- C5: a due compaction whose summarization provider is absent from the
configured provider list fails the turn fatally: nothing is dispatched (the
trace is unchanged, so in particular the primary stream call is never
issued), the not-configured error is appended as an error-flagged agent
message after the stored user message, and the executing flag ends false. -/
theorem summarizationUnavailable_fatal (env : Env) (oc : Oracles) (st0 : TurnState)
    (agent : Agent) (h : HistoryConfig) (cfg : LLMConfig)
    (htrim : ¬ (jsTrim env.userInput) = "")
    (hagent : env.agent = some agent)
    (hcfg : env.llmConfigs.find? (fun c => c.provider = agent.llmProvider) = some cfg)
    (hcen : cfg.enabled = true) (hckey : ¬ cfg.apiKey = "")
    (hhc : agent.historyConfig = some h) (hen : h.enabled = true)
    (hne : 0 < st0.messages.length)
    (hdue : countTokens (st0.messages ++
        [mkUserMessage agent env.attachedFile (jsTrim env.userInput) st0.clock])
        ≥ h.limits.token ∨
      countWords (st0.messages ++
        [mkUserMessage agent env.attachedFile (jsTrim env.userInput) st0.clock])
        ≥ h.limits.word ∨
      countSentences (st0.messages ++
        [mkUserMessage agent env.attachedFile (jsTrim env.userInput) st0.clock])
        ≥ h.limits.sentence ∨
      countMessages (st0.messages ++
        [mkUserMessage agent env.attachedFile (jsTrim env.userInput) st0.clock])
        ≥ h.limits.message)
    (hnosum : env.llmConfigs.find? (fun c => c.provider = h.llmProvider) = none)
    (hfresh : Fresh st0.messages st0.clock) :
    handleSendMessage env oc st0 =
      { messages := st0.messages ++
          [mkUserMessage agent env.attachedFile (jsTrim env.userInput) st0.clock,
           { id := { time := st0.clock + 1, tag := IdTag.plain }, sender := .agent,
             text := "Erreur: " ++ ("Summarization LLM " ++
               providerName h.llmProvider ++ " not configured."), isError := true }]
        executing := false
        clock := st0.clock + 2
        trace := st0.trace } := by
  have hu := mkUserMessage_fields agent env.attachedFile (jsTrim env.userInput) st0.clock
  have herr := historyPhaseE_noSummarizer env.tr agent env.llmConfigs oc.summarize
    st0.messages (mkUserMessage agent env.attachedFile (jsTrim env.userInput) st0.clock)
    (entrySt env agent st0) h hhc hen hne hdue hnosum
  have hbody := turnBody_error env.tr agent cfg env.llmConfigs oc st0.messages
    (mkUserMessage agent env.attachedFile (jsTrim env.userInput) st0.clock)
    (entrySt env agent st0) _ herr
  rw [handleSendMessage_catch env oc st0 agent cfg _ (entrySt env agent st0)
    htrim hagent hcfg hcen hckey hbody]
  have hxid : ∀ x ∈ st0.messages,
      ¬ x.id = (mkUserMessage agent env.attachedFile (jsTrim env.userInput) st0.clock).id := by
    intro x hx he
    have hlt := hfresh x hx
    rw [he, hu.1] at hlt
    have hlt2 : st0.clock < st0.clock := hlt
    omega
  have hmu : (entrySt env agent st0).messages
      = st0.messages ++ [mkUserMessage agent env.attachedFile (jsTrim env.userInput) st0.clock] :=
    addNodeMessage_not_mem hxid
  have hfreshU : Fresh (st0.messages ++
      [mkUserMessage agent env.attachedFile (jsTrim env.userInput) st0.clock])
      (st0.clock + 1) := by
    refine Fresh.append (hfresh.mono (by omega)) ?_
    intro x hx
    rw [List.mem_singleton.mp hx, hu.1]
    show st0.clock < st0.clock + 1
    omega
  congr 1
  rw [hmu, addNodeMessage_fresh hfreshU (Nat.le_refl _), List.append_assoc]
  rfl

/-- Witness for C5: the five-message session submitted to the agent whose
summarizer provider is unconfigured dispatches nothing, ends idle, and holds
the user and error messages on top of the old store. -/
theorem summarizationUnavailable_fatal_witness :
    (handleSendMessage exEnvNoSumm exOcEmpty exSt5).trace = exSt5.trace ∧
    (handleSendMessage exEnvNoSumm exOcEmpty exSt5).executing = false ∧
    (handleSendMessage exEnvNoSumm exOcEmpty exSt5).messages.length
      = exSt5.messages.length + 2 := by
  have h := summarizationUnavailable_fatal exEnvNoSumm exOcEmpty exSt5
    { exAgent with historyConfig := some { exHistCfg with llmProvider := .mistral } }
    { exHistCfg with llmProvider := .mistral } exCfg
    (by decide) rfl (by decide) rfl (by decide) rfl rfl (by decide)
    (Or.inr (Or.inr (Or.inr (by decide)))) (by decide) (freshOfAll (by decide))
  rw [h]
  exact ⟨rfl, rfl, by decide⟩

/-- C9: monotonic streaming — over a chunk list with no error and no
tool-call increment, the loop's final accumulated response is the ordered
concatenation of the text increments, the store is the untouched base plus
the materialized in-progress message, the accumulated response's length is
non-decreasing from each chunk prefix to the next, and after every prefix
the in-progress message's text equals the response accumulated so far. -/
theorem monotonicStreaming (aid : MsgId) (msgs0 : List ChatMessage) (l : List Chunk)
    (hm0 : ∀ x ∈ msgs0, ¬ x.id = aid)
    (hok : ∀ c ∈ l, c.error = none ∧ ∀ r, c.response = some r → r.toolCalls = none) :
    (processChunks aid
      { msgs := msgs0, response := "", calls := [], errored := false } l).response
      = joinedTexts l ∧
    (processChunks aid
      { msgs := msgs0, response := "", calls := [], errored := false } l).msgs
      = msgs0 ++ respTail aid (joinedTexts l) ∧
    (∀ k, (processChunks aid
        { msgs := msgs0, response := "", calls := [], errored := false }
        (l.take k)).response.length
      ≤ (processChunks aid
        { msgs := msgs0, response := "", calls := [], errored := false }
        (l.take (k + 1))).response.length) ∧
    (∀ k, ∀ m ∈ (processChunks aid
        { msgs := msgs0, response := "", calls := [], errored := false }
        (l.take k)).msgs, m.id = aid →
      m.text = (processChunks aid
        { msgs := msgs0, response := "", calls := [], errored := false }
        (l.take k)).response) := by
  have htake : ∀ k, processChunks aid
      { msgs := msgs0, response := "", calls := [], errored := false } (l.take k)
      = { msgs := msgs0 ++ respTail aid (joinedTexts (l.take k)),
          response := joinedTexts (l.take k), calls := [], errored := false } :=
    fun k => processChunks_textInv0 aid hm0
      (fun c hc => hok c (List.take_subset k l hc))
  have hfull := processChunks_textInv0 aid hm0 hok
  refine ⟨by rw [hfull], by rw [hfull], ?_, ?_⟩
  · intro k
    rw [htake k, htake (k + 1)]
    show (joinedTexts (l.take k)).length ≤ (joinedTexts (l.take (k + 1))).length
    rw [List.take_succ, joinedTexts_append, String.length_append]
    omega
  · intro k m hm hid
    rw [htake k] at hm
    rw [htake k]
    rcases List.mem_append.mp hm with h1 | h1
    · exact absurd hid (hm0 m h1)
    · show m.text = joinedTexts (l.take k)
      by_cases hz : joinedTexts (l.take k) = ""
      · rw [hz, respTail_empty aid] at h1
        exact absurd h1 (List.not_mem_nil m)
      · rw [respTail, if_neg hz] at h1
        rw [List.mem_singleton.mp h1]

/-- Witness for C9: two text chunks accumulate to their concatenation and
materialize one in-progress message carrying it. -/
theorem monotonicStreaming_witness :
    (processChunks { time := 100, tag := IdTag.agentTag }
        { msgs := [], response := "", calls := [], errored := false }
        [{ response := some { text := some "Bon" } },
         { response := some { text := some "jour" } }]).response = "Bonjour" ∧
    (processChunks { time := 100, tag := IdTag.agentTag }
        { msgs := [], response := "", calls := [], errored := false }
        [{ response := some { text := some "Bon" } },
         { response := some { text := some "jour" } }]).msgs
      = [{ id := { time := 100, tag := IdTag.agentTag }, sender := .agent,
           text := "Bonjour" }] := by
  have h := monotonicStreaming { time := 100, tag := IdTag.agentTag } []
    [{ response := some { text := some "Bon" } },
     { response := some { text := some "jour" } }]
    (fun m hm => absurd hm (List.not_mem_nil m)) (textOnlyChunks (by decide))
  refine ⟨?_, ?_⟩
  · rw [h.1]
    rfl
  · rw [h.2.1]
    rfl

end AIRDD
